import Mathlib

/-!
# Gateway: filter flow engine, index diff merger, disk-queue consumer

A shallow embedding of the parts of the gateway that the specification makes
claims about:

* `common/flow.go`: the filter registry and `FilterFlow.Process`, `MustGetFlow`,
  `JoinFlows`;
* `pipeline/index_diff/index_diff.go`: `CompareItem`, `processMsg`, the sort phase
  and the sorted-file reader;
* `pipeline/queue_consumer/diskqueue_consumer.go`: `processMessage` and the
  per-message body of `NewBulkWorker`;
* `proxy/filters/elastic/bulk_response_process.go`: `NewBulkResponseValidate` and
  `BulkResponseProcess.Filter`, as the sequence of calls the filter makes on the
  context and on the queues.

Go code that mutates a value through a pointer is written in state-passing style.
A Go panic is an explicit outcome, never an exception of the meta language.
-/

namespace Gateway

/-! ## Outcomes of Go calls -/

/-- Outcome of a Go call that works on a value through a pointer: either the call
returned, or it panicked with a message. In both cases the value is the one the
call left behind. -/
inductive Completion (α : Type) where
  | returned : α → Completion α
  | panicked : String → α → Completion α

/-- The value a call left behind, whether it returned or panicked. -/
def Completion.value {α : Type} : Completion α → α
  | .returned a => a
  | .panicked _ a => a

/-- Whether the call returned normally. -/
def Completion.isReturned {α : Type} : Completion α → Bool
  | .returned _ => true
  | .panicked _ _ => false

/-- A Go `string` or `[]byte`: a sequence of bytes, each a number below 256. -/
abbrev Bytes := List Nat

/-- The bytes of an ASCII literal, to write examples readably. -/
def ascii (s : String) : Bytes := s.toList.map Char.toNat

/-! ## common/flow.go -/

/-- The type of `FilterConfig.Parameters` (`map[string]interface{}`), as an association list. -/
abbrev Parameters := List (String × String)

/-- Modelled from the spec: `fasthttp.RequestCtx` is a framework type that is not part of the
sources. The spec's RequestContext carries a `continue` flag (false stops further filter
execution), a `finished` flag, a tag-set, a scratch key/value map and a flow-process trace. -/
structure RequestCtx where
  shouldContinue : Bool
  finished : Bool
  tags : List String
  data : List (String × String)
  flowProcess : List String
deriving DecidableEq, Repr

/-- The accessor `ctx.ShouldContinue()` read by `FilterFlow.Process`. -/
def RequestCtx.ShouldContinue (ctx : RequestCtx) : Bool := ctx.shouldContinue

/-- What reflection sees of the dynamic type of a value that implements `RequestFilter`, as
far as `GetFilterInstanceWithConfig` looks at it: a struct with a settable field `Data` of
the type of the parameters (`map[string]interface{}`); a struct without a settable map
field `Data`; a struct whose settable field `Data` is a map of another type; or a type that
is not a struct, such as a pointer to a struct. -/
inductive ReflectShape where
  | structWithData
  | structWithoutData
  | structOtherMap
  | notStruct
deriving DecidableEq, Repr

/-- Whether the reflective construction of `GetFilterInstanceWithConfig` goes through for a
type of this shape: `FieldByName` panics on a value that is not a struct, and `Set` panics
when the parameters are not assignable to the `Data` field. -/
def ReflectShape.instantiable : ReflectShape → Bool
  | .structWithData => true
  | .structWithoutData => true
  | .structOtherMap => false
  | .notStruct => false

/-- A value implementing the `RequestFilter` interface (`Name()` and `Process(ctx)`).
`behaviour` is the `Process` method of the value's dynamic type, as a function of the
value's `Data` map; `shape` is what `GetFilterInstanceWithConfig` finds out about that type
by reflection. -/
structure RequestFilter where
  Name : String
  shape : ReflectShape
  Data : Parameters
  behaviour : Parameters → RequestCtx → Completion RequestCtx

/-- The method call `v.Process(ctx)`. -/
def RequestFilter.Process (v : RequestFilter) (ctx : RequestCtx) : Completion RequestCtx :=
  v.behaviour v.Data ctx

/-- The struct `FilterFlow`. -/
structure FilterFlow where
  ID : String
  Filters : List RequestFilter

/-- The method `JoinFilter`: appends the given filters one by one. -/
def FilterFlow.JoinFilter (flow : FilterFlow) (filter : List RequestFilter) : FilterFlow :=
  filter.foldl (fun fl v => { fl with Filters := fl.Filters ++ [v] }) flow

/-- The method `JoinFlows`: for every flow of the argument list, in order, appends each of its
filters to the receiver. The arguments are passed by value, so each holds the filters it had
when the call was made. -/
def FilterFlow.JoinFlows (flow : FilterFlow) (flows : List FilterFlow) : FilterFlow :=
  flows.foldl
    (fun fl v => v.Filters.foldl (fun fl2 x => { fl2 with Filters := fl2.Filters ++ [x] }) fl)
    flow

/-- What one call of `FilterFlow.Process` did: the positions (in `flow.Filters`) of the filters
whose `Process` was called, in call order, and how the call ended. -/
structure FlowRun where
  invoked : List Nat
  result : Completion RequestCtx

/-- The loop of `FilterFlow.Process` from position `i` on: before each filter the continue flag
is tested and the loop is left when it is false; otherwise the filter is called. A panic of
the filter is not recovered, it ends the loop and the call. -/
def processFrom (i : Nat) : List RequestFilter → RequestCtx → FlowRun
  | [], ctx => ⟨[], .returned ctx⟩
  | v :: rest, ctx =>
    if !ctx.ShouldContinue then ⟨[], .returned ctx⟩
    else
      match v.Process ctx with
      | .panicked msg ctx1 => ⟨[i], .panicked msg ctx1⟩
      | .returned ctx1 =>
        let r := processFrom (i + 1) rest ctx1
        ⟨i :: r.invoked, r.result⟩

/-- The method `FilterFlow.Process`. -/
def FilterFlow.Process (flow : FilterFlow) (ctx : RequestCtx) : FlowRun :=
  processFrom 0 flow.Filters ctx

/-- The left fold of the filters over a context: every filter is applied to the context the
previous one left, with no test in between. -/
def foldFilters (fs : List RequestFilter) (ctx : RequestCtx) : RequestCtx :=
  fs.foldl (fun c f => (f.Process c).value) ctx

/-- The struct `FilterConfig`. `Type_` is the field `Type` that `GetFilterInstanceWithConfig`
reads to select the registered filter (the spec's type-name). -/
structure FilterConfig where
  ID : String
  Name : String
  Type_ : String
  Parameters : Parameters
deriving DecidableEq, Repr

/-- The struct `FlowConfig` (the `FiltersV2` plugin configuration is not read by `flow.go`). -/
structure FlowConfig where
  Name : String
  Filters : List FilterConfig
deriving DecidableEq, Repr

/-- The struct `RuleConfig`. -/
structure RuleConfig where
  ID : String
  Description : String
  Method : List String
  PathPattern : List String
  Flow : List String
deriving DecidableEq, Repr

/-- The struct `RouterConfig`. -/
structure RouterConfig where
  Name : String
  DefaultFlow : String
  Rules : List RuleConfig
  TracingFlow : String
deriving DecidableEq, Repr

/-- The package-level maps of `flow.go`. A Go map is a partial function of its key. -/
structure Registry where
  filters : String → Option RequestFilter
  flows : String → Option FilterFlow
  filterConfigs : String → Option FilterConfig
  routingRules : String → Option RuleConfig
  flowConfigs : String → Option FlowConfig
  routerConfigs : String → Option RouterConfig

/-- The map assignment `m[k] = v`. -/
def mapSet {V : Type} (m : String → Option V) (k : String) (v : V) : String → Option V :=
  fun x => if x = k then some v else m x

/-- The registry at program start: all maps empty. -/
def Registry.empty : Registry :=
  ⟨fun _ => none, fun _ => none, fun _ => none, fun _ => none, fun _ => none, fun _ => none⟩

/-- The function `RegisterFilter`. -/
def RegisterFilter (r : Registry) (filter : RequestFilter) : Registry :=
  { r with filters := mapSet r.filters filter.Name filter }

/-- The function `RegisterFlow`. -/
def RegisterFlow (r : Registry) (flow : FilterFlow) : Registry :=
  { r with flows := mapSet r.flows flow.ID flow }

/-- The function `RegisterFlowConfig`. -/
def RegisterFlowConfig (r : Registry) (flow : FlowConfig) : Registry :=
  { r with flowConfigs := mapSet r.flowConfigs flow.Name flow }

/-- The function `RegisterRoutingRule`. -/
def RegisterRoutingRule (r : Registry) (rule : RuleConfig) : Registry :=
  { r with routingRules := mapSet r.routingRules rule.ID rule }

/-- The function `RegisterRouterConfig`. -/
def RegisterRouterConfig (r : Registry) (config : RouterConfig) : Registry :=
  { r with routerConfigs := mapSet r.routerConfigs config.Name config }

/-- The function `GetFilter`: panics when the name is not in the map. -/
def GetFilter (r : Registry) (name : String) : Except String RequestFilter :=
  match r.filters name with
  | some v => .ok v
  | none => .error ("filter [" ++ name ++ "] not found")

/-- The function `GetRouter`. -/
def GetRouter (r : Registry) (name : String) : Except String RouterConfig :=
  match r.routerConfigs name with
  | some v => .ok v
  | none => .error ("router [" ++ name ++ "] not found")

/-- The function `GetRule`. -/
def GetRule (r : Registry) (name : String) : Except String RuleConfig :=
  match r.routingRules name with
  | some v => .ok v
  | none => .error ("rule [" ++ name ++ "] not found")

/-- The function `GetFlowConfig`. -/
def GetFlowConfig (r : Registry) (name : String) : Except String FlowConfig :=
  match r.flowConfigs name with
  | some v => .ok v
  | none => .error ("flow [" ++ name ++ "] not found")

/-- The function `GetFilterInstanceWithConfig`: looks the filter up by `cfg.Type` (a panic when
it is not registered), makes a zero value of its dynamic type with `reflect.New(t).Elem()`
and looks for the field `Data` with `FieldByName`, which panics when the value is not a
struct (a filter registered as a pointer). When the field is a settable map, the parameters
of the configuration are stored in it with `Set`, which panics when the field is a map of
another type. -/
def GetFilterInstanceWithConfig (r : Registry) (cfg : FilterConfig) : Except String RequestFilter :=
  match GetFilter r cfg.Type_ with
  | .error e => .error e
  | .ok filter =>
    match filter.shape with
    | .notStruct => .error "reflect: call of reflect.Value.FieldByName on ptr Value"
    | .structOtherMap => .error "reflect.Set: value is not assignable to the Data field"
    | .structWithData => .ok { filter with Data := cfg.Parameters }
    | .structWithoutData => .ok { filter with Data := [] }

/-- The loop of `MustGetFlow` over `cfg.Filters`: every filter configuration is instantiated
and joined to the flow under construction; the first failing instantiation panics. -/
def materialize (r : Registry) : List FilterConfig → FilterFlow → Except String FilterFlow
  | [], v => .ok v
  | z :: rest, v =>
    match GetFilterInstanceWithConfig r z with
    | .error e => .error e
    | .ok f => materialize r rest (v.JoinFilter [f])

/-- The function `MustGetFlow`, with the registry it leaves. A panic is an `error`; the map
`flows` is written only after the loop has ended. -/
def MustGetFlow (r : Registry) (flowID : String) : Except String FilterFlow × Registry :=
  match r.flows flowID with
  | some v => (.ok v, r)
  | none =>
    match GetFlowConfig r flowID with
    | .error e => (.error e, r)
    | .ok cfg =>
      match materialize r cfg.Filters ⟨"", []⟩ with
      | .error e => (.error e, r)
      | .ok v => (.ok v, { r with flows := mapSet r.flows flowID v })

/-- The function `GetFlowProcess`. -/
def GetFlowProcess (r : Registry) (flowID : String) :
    Except String (RequestCtx → FlowRun) × Registry :=
  match MustGetFlow r flowID with
  | (.ok flow, r1) => (.ok flow.Process, r1)
  | (.error e, r1) => (.error e, r1)

/-- The loop of the package function `JoinFlows`: each id is resolved with `MustGetFlow` and
the call `flow.JoinFlows(flow, temp)` is made on the flow under construction. -/
def joinFlowsLoop : Registry → List String → FilterFlow → Except String FilterFlow × Registry
  | r, [], flow => (.ok flow, r)
  | r, v :: rest, flow =>
    match MustGetFlow r v with
    | (.error e, r1) => (.error e, r1)
    | (.ok temp, r1) => joinFlowsLoop r1 rest (flow.JoinFlows [flow, temp])

/-- The package function `JoinFlows`. -/
def JoinFlows (r : Registry) (flowID : List String) : Except String FilterFlow × Registry :=
  joinFlowsLoop r flowID ⟨"", []⟩

/-- A call that writes the package-level maps: one of the `Register...` functions, or
`MustGetFlow`, which stores the flow it materializes. -/
inductive RegistryOp where
  | registerFilter (filter : RequestFilter)
  | registerFlow (flow : FilterFlow)
  | registerFlowConfig (flow : FlowConfig)
  | registerRoutingRule (rule : RuleConfig)
  | registerRouterConfig (config : RouterConfig)
  | mustGetFlow (flowID : String)

/-- The registry after one call. -/
def applyOp (r : Registry) : RegistryOp → Registry
  | .registerFilter filter => RegisterFilter r filter
  | .registerFlow flow => RegisterFlow r flow
  | .registerFlowConfig flow => RegisterFlowConfig r flow
  | .registerRoutingRule rule => RegisterRoutingRule r rule
  | .registerRouterConfig config => RegisterRouterConfig r config
  | .mustGetFlow flowID => (MustGetFlow r flowID).2

/-- The registry after a sequence of calls, from the registry `r`. -/
def applyOps (r : Registry) (ops : List RegistryOp) : Registry := ops.foldl applyOp r

/-- Whether a call returned an error (a panic). -/
def failed {α : Type} : Except String α → Bool
  | .error _ => true
  | .ok _ => false

/-! ### Sample filters and contexts -/

/-- A fresh context: continue flag set, nothing else. -/
def ctx0 : RequestCtx := ⟨true, false, [], [], []⟩

/-- A filter that tags the context with its name and lets the flow continue. -/
def tagFilter (name : String) : RequestFilter :=
  ⟨name, .structWithoutData, [],
    fun _ ctx => .returned { ctx with tags := ctx.tags ++ [name] }⟩

/-- A filter that tags the context with its name and clears the continue flag. -/
def stopFilter (name : String) : RequestFilter :=
  ⟨name, .structWithoutData, [],
    fun _ ctx => .returned { ctx with tags := ctx.tags ++ [name], shouldContinue := false }⟩

/-- A filter that tags the context with its name and then panics. -/
def panicFilter (name : String) : RequestFilter :=
  ⟨name, .structWithoutData, [],
    fun _ ctx => .panicked "boom" { ctx with tags := ctx.tags ++ [name] }⟩

/-- A tagging filter that is registered as a pointer to its struct. -/
def pointerFilter (name : String) : RequestFilter :=
  ⟨name, .notStruct, [], fun _ ctx => .returned { ctx with tags := ctx.tags ++ [name] }⟩

/-- A registry in which the flows `a` = [tag A] and `b` = [tag B] have been registered. -/
def registryAB : Registry :=
  RegisterFlow (RegisterFlow Registry.empty ⟨"a", [tagFilter "A"]⟩) ⟨"b", [tagFilter "B"]⟩

/-- A flow configuration `flow1` with one filter of type `A`. -/
def flowConfig1 : FlowConfig := ⟨"flow1", [⟨"1", "first", "A", [("k", "v")]⟩]⟩

/-- A registry with the filter `A` and the flow configuration `flow1`, no flow materialized. -/
def registry1 : Registry :=
  RegisterFlowConfig (RegisterFilter Registry.empty (tagFilter "A")) flowConfig1

/-- A flow configuration `flowp` with one filter of type `P`. -/
def flowConfigP : FlowConfig := ⟨"flowp", [⟨"1", "first", "P", []⟩]⟩

/-- A registry with the filter `P`, registered as a pointer, and the flow configuration `flowp`
that selects it; no flow materialized. -/
def registryPointer : Registry :=
  RegisterFlowConfig (RegisterFilter Registry.empty (pointerFilter "P")) flowConfigP

/-! ## pipeline/index_diff/index_diff.go -/

namespace IndexDiff

/-- The library functions `strings.Compare` and `bytes.Compare`: byte-wise lexicographic
comparison, with result -1, 0 or +1. -/
def Compare : Bytes → Bytes → Int
  | [], [] => 0
  | [], _ :: _ => -1
  | _ :: _, [] => 1
  | x :: xs, y :: ys => if x < y then -1 else if y < x then 1 else Compare xs ys

/-- The struct `CompareItem`. The field `Doc` is never set by the reader and is left out. -/
structure CompareItem where
  Key : Bytes
  Hash : Bytes
deriving DecidableEq, Repr

/-- The struct `DiffResult`; the two pointers are optional items, as they are at the time the
handler is called. -/
structure DiffResult where
  DiffType : String
  Key : Bytes
  Source : Option CompareItem
  Target : Option CompareItem
deriving DecidableEq, Repr

/-- The method `CompareKey`. -/
def CompareItem.CompareKey (a b : CompareItem) : Int := Compare a.Key b.Key

/-- The method `CompareHash`. -/
def CompareItem.CompareHash (a b : CompareItem) : Int := Compare a.Hash b.Hash

/-- The function `NewCompareItem`. -/
def NewCompareItem (key hash : Bytes) : CompareItem := { Key := key, Hash := hash }

/-- Which channel receives follow a pass through the label `COMPARE`. -/
inductive Advance where
  | source
  | target
  | both
deriving DecidableEq, Repr

/-- The body of `processMsg` at the label `COMPARE`, up to its channel receives: the record
handed to `diffResultHandler` (if any) and the receives that follow. -/
def compareStep (msgA msgB : CompareItem) : Option DiffResult × Advance :=
  let result := msgA.CompareKey msgB
  if result > 0 then
    (some { DiffType := "OnlyInTarget", Key := msgB.Key, Source := none, Target := some msgB },
      .target)
  else if result < 0 then
    (some { DiffType := "OnlyInSource", Key := msgA.Key, Source := some msgA, Target := none },
      .source)
  else if msgA.CompareHash msgB ≠ 0 then
    (some { DiffType := "DiffBoth", Key := msgB.Key, Source := some msgA, Target := some msgB },
      .both)
  else
    (none, .both)

/-- One pass through the label `COMPARE`: the two heads compared and the record emitted. -/
structure Pass where
  msgA : CompareItem
  msgB : CompareItem
  emitted : Option DiffResult
deriving DecidableEq, Repr

/-- The label `MOVEALL`: one item is received from the source channel, then one from the
target channel. `left` and `right` are the items still to come on the two channels, in the
order they are sent. The channels are never closed, so a receive on a channel with nothing
left blocks for ever: the result is then `none`. -/
def moveAll (left right : List CompareItem) :
    Option (CompareItem × CompareItem × List CompareItem × List CompareItem) :=
  match left, right with
  | a :: left1, b :: right1 => some (a, b, left1, right1)
  | _, _ => none

/-- The channel receives that follow a pass through `COMPARE`, giving the heads and channel
contents of the next pass, or `none` when the receive blocks for ever. -/
def receive (adv : Advance) (msgA msgB : CompareItem) (left right : List CompareItem) :
    Option (CompareItem × CompareItem × List CompareItem × List CompareItem) :=
  match adv with
  | .target =>
    match right with
    | [] => none
    | b :: right1 => some (msgA, b, left, right1)
  | .source =>
    match left with
    | [] => none
    | a :: left1 => some (a, msgB, left1, right)
  | .both => moveAll left right

/-- The loop of `processMsg` from the label `COMPARE` with heads `msgA`, `msgB`: the passes
made, in order, until a receive blocks. -/
def compareLoop (msgA msgB : CompareItem) (left right : List CompareItem) : List Pass :=
  ⟨msgA, msgB, (compareStep msgA msgB).1⟩ ::
    match h : receive (compareStep msgA msgB).2 msgA msgB left right with
    | none => []
    | some (a, b, left1, right1) => compareLoop a b left1 right1
termination_by left.length + right.length
decreasing_by
  simp_wf
  revert h
  cases (compareStep msgA msgB).2 <;> cases left <;> cases right <;>
    simp only [receive, moveAll, reduceCtorEq, false_implies, Option.some.injEq, Prod.mk.injEq,
      and_imp] <;> intro _ _ h3 h4 <;> subst h3 h4 <;> simp
  all_goals omega

/-- The method `processMsg` on the contents of the two channels of a partition: the passes
made before the method blocks. -/
def processMsg (left right : List CompareItem) : List Pass :=
  match moveAll left right with
  | none => []
  | some (a, b, left1, right1) => compareLoop a b left1 right1

/-- The records `processMsg` hands to `diffResultHandler`, in call order. -/
def emittedRecords (left right : List CompareItem) : List DiffResult :=
  (processMsg left right).filterMap (fun p => p.emitted)

/-- The keys `processMsg` drops silently: key and hash equal on both sides. -/
def silentKeys (left right : List CompareItem) : List Bytes :=
  ((processMsg left right).filter (fun p => p.emitted.isNone)).map (fun p => p.msgA.Key)

/-- The library function `strings.FieldsFunc` for a predicate on single bytes: the maximal runs
of bytes that do not satisfy `f`, in order. `cur` is the run being read. -/
def fieldsAux (f : Nat → Bool) : Bytes → Bytes → List Bytes
  | [], cur => if cur.isEmpty then [] else [cur]
  | c :: rest, cur =>
    if f c then
      (if cur.isEmpty then fieldsAux f rest [] else cur :: fieldsAux f rest [])
    else fieldsAux f rest (cur ++ [c])

/-- The library function `strings.FieldsFunc`. -/
def FieldsFunc (s : Bytes) (f : Nat → Bool) : List Bytes := fieldsAux f s []

/-- The byte of the comma. -/
def comma : Nat := 44

/-- The callback of the sorted-file reader: a line gives an item when splitting it at commas
leaves exactly two fields. -/
def readLine (line : Bytes) : Option CompareItem :=
  match FieldsFunc line (fun r => r == comma) with
  | [id, hash] => some { Key := id, Hash := hash }
  | _ => none

/-- The order of `extsort.New(nil)`: with no options the sorter compares whole lines with
`bytes.Compare`. -/
def lineLE (a b : Bytes) : Prop := Compare a b ≤ 0

instance : DecidableRel lineLE := fun a b => inferInstanceAs (Decidable (Compare a b ≤ 0))

/-- The external sorter: `Append` of every line, then `Sort`; the iterator yields the lines in
non-decreasing `bytes.Compare` order. -/
def sorterSort (lines : List Bytes) : List Bytes := lines.insertionSort lineLE

/-- The write loop of the sort phase, a file being the sequence of its lines: each line of the
iterator goes to the buffer (followed by a newline), and the buffer is appended to the sorted
file and reset when it holds more than 10*1024 bytes. -/
def writeLoop : List Bytes → List Bytes → List Bytes → List Bytes × List Bytes
  | [], buffer, sortedFile => (buffer, sortedFile)
  | d :: rest, buffer, sortedFile =>
    let buffer1 := buffer ++ [d]
    if (buffer1.map (fun l => l.length + 1)).sum > 10 * 1024 then
      writeLoop rest [] (sortedFile ++ buffer1)
    else writeLoop rest buffer1 sortedFile

/-- The sort phase for one queue of one partition. When the sorted file exists it is kept as
it is; otherwise the lines of the input file are sorted and written, the rest of the buffer
being appended at the end. -/
def sortPhase (existing : Option (List Bytes)) (file : List Bytes) : List Bytes :=
  match existing with
  | some sortedFile => sortedFile
  | none =>
    let (buffer, sortedFile) := writeLoop (sorterSort file) [] []
    if (buffer.map (fun l => l.length + 1)).sum > 0 then sortedFile ++ buffer else sortedFile

/-- The sorted-file reader: the items sent to the channel of the partition, in order. -/
def readSorted (sortedFile : List Bytes) : List CompareItem := sortedFile.filterMap readLine

/-- A well-formed line `key,hash`: one comma between a non-empty key and a non-empty hash. -/
def WellFormed (line : Bytes) : Prop :=
  ∃ key hash : Bytes, line = key ++ comma :: hash ∧ key ≠ [] ∧ hash ≠ [] ∧
    comma ∉ key ∧ comma ∉ hash

/-- Where the report task goes when `queue.PopTimeout` has timed out: it sleeps and jumps back
to `WAIT`, it jumps to `RESULT` and writes the report, or it leaves the `if` and goes on to
decode the popped value. -/
inductive WaitStep where
  | wait
  | result
  | decode
deriving DecidableEq, Repr

/-- The loop `for i := 0; i < PartitionSize; i++` of the timeout branch, entered at `i`.
`lenLeft p` and `lenRight p` are the numbers of items in the sorted source and target
channels of partition `p`. The body jumps out in both of its cases, so `i++` is never
reached. -/
def timeoutLoop (partitionSize : Nat) (lenLeft lenRight : Nat → Nat) (i : Nat) : WaitStep :=
  if i < partitionSize then
    if lenLeft i > 0 ∨ lenRight i > 0 then .wait
    else .result
  else .decode

/-- The timeout branch of the wait loop of the report task. -/
def timeoutCheck (partitionSize : Nat) (lenLeft lenRight : Nat → Nat) : WaitStep :=
  timeoutLoop partitionSize lenLeft lenRight 0

/-- A stream that is strictly increasing by key, in the order of `CompareKey`. -/
def StrictlyIncreasing (items : List CompareItem) : Prop :=
  items.Pairwise (fun x y => x.CompareKey y < 0)

/-- A record that is right about the streams `source` and `target`: an OnlyInSource record
made of a source item whose key no target item has, an OnlyInTarget record made of a target
item whose key no source item has, or a DiffBoth record made of a source item and a target
item with the same key and different hashes. -/
def SoundRecord (source target : List CompareItem) (d : DiffResult) : Prop :=
  (∃ a ∈ source, d = ⟨"OnlyInSource", a.Key, some a, none⟩ ∧ ∀ b ∈ target, b.Key ≠ a.Key) ∨
  (∃ b ∈ target, d = ⟨"OnlyInTarget", b.Key, none, some b⟩ ∧ ∀ a ∈ source, a.Key ≠ b.Key) ∨
  (∃ a ∈ source, ∃ b ∈ target, d = ⟨"DiffBoth", b.Key, some a, some b⟩ ∧ a.Key = b.Key ∧
    a.Hash ≠ b.Hash)

end IndexDiff

/-! ### Sample streams -/

namespace IndexDiff

/-- An item written with ASCII literals. -/
def item (key hash : String) : CompareItem := NewCompareItem (ascii key) (ascii hash)

/-- The source stream of the two-pointer scenario. -/
def scenarioSource : List CompareItem := [item "a" "H1", item "c" "H3", item "d" "H4"]

/-- The target stream of the two-pointer scenario. -/
def scenarioTarget : List CompareItem := [item "b" "H2", item "c" "H3x", item "d" "H4"]

/-- The lines of a source file with the keys `a`, `a!` and `b`. -/
def prefixSourceFile : List Bytes := [ascii "a,h2", ascii "a!,h1", ascii "b,h3"]

/-- The lines of a target file with the keys `a` and `b`, hashes as in the source file. -/
def prefixTargetFile : List Bytes := [ascii "a,h2", ascii "b,h3"]

end IndexDiff

/-! ## pipeline/queue_consumer/diskqueue_consumer.go -/

namespace QueueConsumer

/-- The fields of the struct `Config` that the worker and `processMessage` read for one
message. -/
structure Config where
  InputQueue : String
  FailureQueue : String
  InvalidQueue : String
  SaveSuccessDocsToQueue : Bool
  PartialSuccessQueue : String
  Compress : Bool
  DocBufferSize : Nat
deriving DecidableEq, Repr

/-- The defaults `NewBulkWorker` fills in before its loop. -/
def applyDefaults (c : Config) : Config :=
  let c1 := if c.FailureQueue = "" then { c with FailureQueue := c.InputQueue ++ "-failure" } else c
  let c2 := if c1.InvalidQueue = "" then { c1 with InvalidQueue := c1.InputQueue ++ "-invalid" } else c1
  if c2.PartialSuccessQueue = "" then
    { c2 with PartialSuccessQueue := c2.InputQueue ++ "-partial-success" }
  else c2

/-- The function `util.ContainStr` on character lists: `sub` occurs in `s`. -/
def containList (sub : List Char) : List Char → Bool
  | [] => sub.isEmpty
  | c :: rest => sub.isPrefixOf (c :: rest) || containList sub rest

/-- The function `util.ContainStr`. -/
def ContainStr (s sub : String) : Bool := containList sub.toList s.toList

/-- What the collaborators answer while one popped message is processed: the decoder, the HTTP
client, the bulk response codec and the request encoder. -/
structure Exchange where
  decodeErr : Option String
  requestURI : String
  doErr : Option String
  statusCode : Int
  containError : Bool
  nonRetryableItems : Bytes
  retryableItems : Bytes
  successItems : Bytes
  overrideBodyEncode : Bytes → Bytes

/-- One call of `queue.Push`. -/
structure Push where
  queue : String
  payload : Bytes
deriving DecidableEq, Repr

/-- The results of `processMessage` and the pushes it made. -/
structure Processed where
  ok : Bool
  status : Int
  err : Option String
  pushes : List Push
deriving DecidableEq, Repr

/-- The method `processMessage`. Compression and traffic control change neither the results
nor the pushes and are left out. -/
def processMessage (cfg : Config) (ex : Exchange) (_pop : Bytes) : Processed :=
  match ex.decodeErr with
  | some e => ⟨false, 408, some e, []⟩
  | none =>
    match ex.doErr with
    | some e => ⟨false, ex.statusCode, some e, []⟩
    | none =>
      if ex.statusCode = 200 ∨ ex.statusCode = 201 ∨ ex.statusCode = 404 then
        if ContainStr ex.requestURI "_bulk" then
          if ex.containError then
            let p1 : List Push :=
              if ex.nonRetryableItems.length > 0 then
                [⟨cfg.InvalidQueue, ex.overrideBodyEncode (ex.nonRetryableItems ++ [10])⟩]
              else []
            let p2 : List Push :=
              if ex.retryableItems.length > 0 then
                [⟨cfg.FailureQueue, ex.overrideBodyEncode (ex.retryableItems ++ [10])⟩]
              else []
            let p3 : List Push :=
              if ex.successItems.length > 0 ∧ cfg.SaveSuccessDocsToQueue = true then
                [⟨cfg.PartialSuccessQueue, ex.overrideBodyEncode (ex.successItems ++ [10])⟩]
              else []
            ⟨true, ex.statusCode, none, p1 ++ p2 ++ p3⟩
          else ⟨true, ex.statusCode, none, []⟩
        else ⟨true, ex.statusCode, none, []⟩
      else ⟨false, ex.statusCode, some "invalid status code", []⟩

/-- What the worker does with one popped message: the pushes made, in order, and the panic
raised when a push of the worker returns an error. -/
structure Handled where
  pushes : List Push
  panic : Option String
deriving DecidableEq, Repr

/-- The body of the loop of `NewBulkWorker` after `queue.PopTimeout` has returned `pop`.
`pushErr` is the error `queue.Push` returns for a queue, if any. -/
def handlePop (cfg : Config) (pushErr : String → Option String) (ex : Exchange) (pop : Bytes) :
    Handled :=
  if pop.length > 0 then
    let r := processMessage cfg ex pop
    if !r.ok then
      if r.status ≠ 429 ∧ r.status ≥ 400 ∧ r.status < 500 then
        ⟨r.pushes ++ [⟨cfg.InvalidQueue, pop⟩], pushErr cfg.InvalidQueue⟩
      else
        ⟨r.pushes ++ [⟨cfg.FailureQueue, pop⟩], pushErr cfg.FailureQueue⟩
    else ⟨r.pushes, none⟩
  else ⟨[], none⟩

/-- The pushes of a run that went to the queue `q`. -/
def pushesTo (q : String) (ps : List Push) : List Push := ps.filter (fun p => p.queue = q)

/-- A worker configuration with the default queue names filled in. -/
def sampleConfig : Config := applyDefaults ⟨"bulk", "", "", false, "", false, 262144⟩

/-- An exchange for a request to a document endpoint that the upstream answers with the given
status, with no decoding or network error. -/
def docExchange (status : Int) : Exchange :=
  ⟨none, "/idx/_doc/1", none, status, false, [], [], [], fun b => b⟩

/-- A popped payload. -/
def samplePop : Bytes := ascii "POST /idx/_doc/1"

end QueueConsumer

/-! ## proxy/filters/elastic/bulk_response_process.go -/

namespace BulkResponse

/-- The fields of the struct `Config` that `Filter` and `NewBulkResponseValidate` read. The
retry rules and the parse configuration are only handed on to the bulk codec. -/
structure Config where
  StatsOnly : Bool
  SuccessQueue : String
  InvalidQueue : String
  FailureQueue : String
  MessageTruncateSize : Nat
  PartialFailureRetry : Bool
  ContinueOnAllError : Bool
  ContinueOnAnyError : Bool
  ContinueOnSuccess : Bool
  TagsOnAllSuccess : List String
  TagsOnNone2xx : List String
  TagsOnAllInvalid : List String
  TagsOnAllFailure : List String
  TagsOnAnyError : List String
  TagsOnPartialSuccess : List String
  TagsOnPartialFailure : List String
  TagsOnPartialInvalid : List String
  RetryFlow : String
deriving DecidableEq, Repr

/-- The struct `BulkResponseProcess`; `retryFlow` is a pointer that may be nil. -/
structure BulkResponseProcess where
  id : String
  config : Config
  retryFlow : Option FilterFlow

/-- The method `Name`. -/
def BulkResponseProcess.Name (_this : BulkResponseProcess) : String := "bulk_response_process"

/-- The function `NewBulkResponseValidate` on the result of unpacking the configuration over
the defaults, with the registry it leaves; `uuid` is what `util.GetUUID` returns. The retry
flow is resolved with `MustGetFlow` when it is named and partial failure retry is on. -/
def NewBulkResponseValidate (r : Registry) (unpacked : Except String Config) (uuid : String) :
    Except String BulkResponseProcess × Registry :=
  match unpacked with
  | .error e => (.error ("failed to unpack the filter configuration : " ++ e), r)
  | .ok cfg =>
    if cfg.RetryFlow ≠ "" ∧ cfg.PartialFailureRetry = true then
      match MustGetFlow r cfg.RetryFlow with
      | (.error e, r1) => (.error e, r1)
      | (.ok flow, r1) => (.ok ⟨uuid, cfg, some flow⟩, r1)
    else (.ok ⟨uuid, cfg, none⟩, r)

/-- Modelled from the spec: the pooled BulkBuffer of the framework is not in the sources. It
counts logical messages and holds their bytes (`messageCount()`, `messageBytes()`). -/
structure BulkBuffer where
  count : Nat
  bytes : Bytes
deriving DecidableEq, Repr

/-- Modelled from the spec: `safetyEndWithNewline()` ensures a trailing newline. -/
def BulkBuffer.SafetyEndWithNewline (b : BulkBuffer) : BulkBuffer :=
  if b.bytes.getLast? = some 10 then b else { b with bytes := b.bytes ++ [10] }

/-- What `Filter` reads from the request and the response of the context, and what the bulk
codec (`HandleBulkResponse`) and the retry rules (`Retryable`) answer for them. -/
structure BulkExchange where
  method : String
  path : String
  statusCode : Int
  containError : Bool
  hasBulkResults : Bool
  successItems : BulkBuffer
  nonRetryableItems : BulkBuffer
  retryableItems : BulkBuffer
  retryable : Bool
deriving DecidableEq, Repr

/-- The tag options of the configuration, to tell the calls of `UpdateTags` apart. -/
inductive TagOption where
  | allSuccess
  | none2xx
  | allInvalid
  | allFailure
  | anyError
  | partialSuccess
  | partialFailure
  | partialInvalid
deriving DecidableEq, Repr

/-- The queue options of the configuration, to tell the calls of `queue.Push` apart. -/
inductive QueueOption where
  | success
  | invalid
  | failure
deriving DecidableEq, Repr

/-- The message handed to `queue.Push`: the request of the context re-encoded with another
body (`OverrideBodyEncode`), or the request encoded as it is (`Encode`). -/
inductive Payload where
  | overrideBody (body : Bytes)
  | encoded
deriving DecidableEq, Repr

/-- A call `Filter` makes on the context or on a queue. `runFlow` is the call
`this.retryFlow.Process(ctx)`, with the positions of the filters it invoked. -/
inductive Effect where
  | set (key : String)
  | updateTags (option : TagOption) (tags : List String)
  | push (option : QueueOption) (queue : String) (payload : Payload)
  | addFlowProcess (entry : String)
  | runFlow (id : String) (invoked : List Nat)
  | finished
deriving DecidableEq, Repr

/-- Modelled from the spec: `ctx.UpdateTags(add, nil)` adds the labels to the tag-set. -/
def UpdateTags (ctx : RequestCtx) (add : List String) : RequestCtx :=
  { ctx with tags := ctx.tags ++ add.filter (fun t => !ctx.tags.contains t) }

/-- Modelled from the spec: `ctx.Set(key, value)` writes the scratch map. -/
def CtxSet (ctx : RequestCtx) (key value : String) : RequestCtx :=
  { ctx with data := (key, value) :: ctx.data.filter (fun kv => kv.1 ≠ key) }

/-- Modelled from the spec: `ctx.AddFlowProcess(entry)` appends to the flow-process trace. -/
def AddFlowProcess (ctx : RequestCtx) (entry : String) : RequestCtx :=
  { ctx with flowProcess := ctx.flowProcess ++ [entry] }

/-- Modelled from the spec: `ctx.Finished()` sets the finished flag. -/
def Finished (ctx : RequestCtx) : RequestCtx := { ctx with finished := true }

/-- The change a call makes to the context. A push leaves it alone; the change made by the
retry flow is taken from the run of the flow itself. -/
def applyEffect (ctx : RequestCtx) : Effect → RequestCtx
  | .set key => CtxSet ctx key "bulk_results"
  | .updateTags _ tags => UpdateTags ctx tags
  | .push _ _ _ => ctx
  | .addFlowProcess entry => AddFlowProcess ctx entry
  | .runFlow _ _ => ctx
  | .finished => Finished ctx

/-- The context after a sequence of calls. -/
def applyAll (ctx : RequestCtx) (es : List Effect) : RequestCtx := es.foldl applyEffect ctx

/-- What one call of `Filter` did: the calls it made, in order, and how it ended. -/
structure FilterRun where
  effects : List Effect
  result : Completion RequestCtx

/-- The pattern `if len(tags) > 0 { ctx.UpdateTags(tags, nil) }`. -/
def tagEffect (option : TagOption) (tags : List String) : List Effect :=
  if tags.length > 0 then [.updateTags option tags] else []

/-- The pattern `if !continue { ctx.Finished(); return }` that ends each branch. -/
def finishedEffect (continueOn : Bool) : List Effect :=
  if !continueOn then [.finished] else []

/-- The block of `Filter` for the non-retryable items. -/
def invalidEffects (cfg : Config) (rq : BulkExchange) : List Effect :=
  if rq.nonRetryableItems.count > 0 then
    (if cfg.InvalidQueue ≠ "" then
      [.push .invalid cfg.InvalidQueue
        (.overrideBody rq.nonRetryableItems.SafetyEndWithNewline.bytes)]
    else []) ++
    tagEffect .partialInvalid cfg.TagsOnPartialInvalid ++
    (if rq.successItems.count = 0 ∧ rq.retryableItems.count = 0 then
      tagEffect .allInvalid cfg.TagsOnAllInvalid
    else [])
  else []

/-- The tags of the block of `Filter` for the retryable items. -/
def failureTagEffects (cfg : Config) (rq : BulkExchange) : List Effect :=
  tagEffect .partialFailure cfg.TagsOnPartialFailure ++
  (if rq.successItems.count = 0 ∧ rq.nonRetryableItems.count = 0 then
    tagEffect .allFailure cfg.TagsOnAllFailure
  else [])

/-- The block of `Filter` for the success items of a response with errors. -/
def successEffects (cfg : Config) (rq : BulkExchange) : List Effect :=
  if rq.successItems.count > 0 then
    (if cfg.SuccessQueue ≠ "" then
      [.push .success cfg.SuccessQueue
        (.overrideBody rq.successItems.SafetyEndWithNewline.bytes)]
    else []) ++
    tagEffect .partialSuccess cfg.TagsOnPartialSuccess
  else []

/-- A run of `Filter` that returns after the calls `es`, made on the context `ctx`. -/
def returnAfter (ctx : RequestCtx) (es : List Effect) : FilterRun :=
  ⟨es, .returned (applyAll ctx es)⟩

/-- The branch of `Filter` for a 200/201 response that contains item errors, after the calls
`pre` (the bulk status written to the context). -/
def anyErrorBranch (this : BulkResponseProcess) (rq : BulkExchange) (ctx : RequestCtx)
    (pre : List Effect) : FilterRun :=
  let cfg := this.config
  let pre1 := pre ++ tagEffect .anyError cfg.TagsOnAnyError ++ invalidEffects cfg rq
  let post := successEffects cfg rq ++ finishedEffect cfg.ContinueOnAnyError
  if rq.retryableItems.count > 0 then
    if cfg.FailureQueue ≠ "" then
      let pushFailure : List Effect :=
        [.push .failure cfg.FailureQueue
          (.overrideBody rq.retryableItems.SafetyEndWithNewline.bytes)]
      match (if cfg.PartialFailureRetry then this.retryFlow else none) with
      | some flow =>
        let pre2 := pre1 ++ [.addFlowProcess ("retry_flow:" ++ flow.ID)]
        let run := flow.Process (applyAll ctx pre2)
        match run.result with
        | .panicked msg ctx1 => ⟨pre2 ++ [.runFlow flow.ID run.invoked], .panicked msg ctx1⟩
        | .returned ctx1 =>
          ⟨pre2 ++ [.runFlow flow.ID run.invoked] ++
              (pushFailure ++ failureTagEffects cfg rq ++ post),
            .returned (applyAll ctx1 (pushFailure ++ failureTagEffects cfg rq ++ post))⟩
      | none => returnAfter ctx (pre1 ++ pushFailure ++ failureTagEffects cfg rq ++ post)
    else returnAfter ctx (pre1 ++ failureTagEffects cfg rq ++ post)
  else returnAfter ctx (pre1 ++ post)

/-- The method `Filter`. -/
def BulkResponseProcess.Filter (this : BulkResponseProcess) (rq : BulkExchange)
    (ctx : RequestCtx) : FilterRun :=
  let cfg := this.config
  if rq.method ≠ "POST" ∨ QueueConsumer.ContainStr rq.path "_bulk" = false then
    returnAfter ctx []
  else if rq.statusCode = 200 ∨ rq.statusCode = 201 then
    let pre : List Effect := if rq.hasBulkResults then [.set "bulk_response_status"] else []
    if cfg.StatsOnly then returnAfter ctx pre
    else if rq.containError then anyErrorBranch this rq ctx pre
    else
      returnAfter ctx
        (pre ++ tagEffect .allSuccess cfg.TagsOnAllSuccess ++
          (if cfg.SuccessQueue ≠ "" then [.push .success cfg.SuccessQueue .encoded] else []) ++
          finishedEffect cfg.ContinueOnSuccess)
  else
    returnAfter ctx
      (tagEffect .none2xx cfg.TagsOnNone2xx ++
        (if cfg.FailureQueue ≠ "" ∧ rq.retryable = true then
          [.push .failure cfg.FailureQueue .encoded]
        else []) ++
        finishedEffect cfg.ContinueOnAllError)

/-! ### Sample configurations and exchanges -/

/-- A configuration with every queue and every tag option set, retry flow `retry`, and no
continuation after any outcome. -/
def sampleConfig : Config :=
  { StatsOnly := false, SuccessQueue := "success", InvalidQueue := "invalid",
    FailureQueue := "failure", MessageTruncateSize := 1024, PartialFailureRetry := true,
    ContinueOnAllError := false, ContinueOnAnyError := false, ContinueOnSuccess := false,
    TagsOnAllSuccess := ["all_success"], TagsOnNone2xx := ["none_2xx"],
    TagsOnAllInvalid := ["all_invalid"], TagsOnAllFailure := ["all_failure"],
    TagsOnAnyError := ["any_error"], TagsOnPartialSuccess := ["partial_success"],
    TagsOnPartialFailure := ["partial_failure"], TagsOnPartialInvalid := ["partial_invalid"],
    RetryFlow := "retry" }

/-- A POST `_bulk` exchange with the given status, error flag and bucket counts. -/
def bulkExchange (status : Int) (containError : Bool) (success invalid failure : Nat)
    (retryable : Bool) : BulkExchange :=
  ⟨"POST", "/idx/_bulk", status, containError, true, ⟨success, ascii "s"⟩,
    ⟨invalid, ascii "i"⟩, ⟨failure, ascii "f"⟩, retryable⟩

/-- A registry in which the flow `retry` = [tag A] has been registered with `RegisterFlow`. -/
def registryRetryFlow : Registry := RegisterFlow Registry.empty ⟨"retry", [tagFilter "A"]⟩

/-- A registry in which the flow `retry` = [panic A] has been registered with `RegisterFlow`:
a retry flow whose filter panics. -/
def registryRetryPanic : Registry := RegisterFlow Registry.empty ⟨"retry", [panicFilter "A"]⟩

/-- A registry with the filter `A` and a flow configuration `retry`, no flow materialized. -/
def registryRetryConfig : Registry :=
  RegisterFlowConfig (RegisterFilter Registry.empty (tagFilter "A"))
    ⟨"retry", [⟨"1", "first", "A", []⟩]⟩

/-- The filter built over a registry, or one without retry flow when the construction
fails. -/
def builtFilter (r : Registry) (cfg : Config) : BulkResponseProcess :=
  match (NewBulkResponseValidate r (.ok cfg) "uuid").1 with
  | .ok this => this
  | .error _ => ⟨"uuid", cfg, none⟩

end BulkResponse

/-! ## Theorems: the flow engine -/

/-- A flow entered with the continue flag false calls nothing. -/
theorem processFrom_of_not_continue (i : Nat) (fs : List RequestFilter) (ctx : RequestCtx)
    (h : ctx.ShouldContinue = false) : processFrom i fs ctx = ⟨[], .returned ctx⟩ := by
  cases fs with
  | nil => rfl
  | cons v rest => simp [processFrom, h]

/-- Unfolding of the loop at a filter that is called and returns. -/
theorem processFrom_cons_returned (i : Nat) (v : RequestFilter) (rest : List RequestFilter)
    (ctx ctx1 : RequestCtx) (hc : ctx.ShouldContinue = true) (hv : v.Process ctx = .returned ctx1) :
    processFrom i (v :: rest) ctx =
      ⟨i :: (processFrom (i + 1) rest ctx1).invoked, (processFrom (i + 1) rest ctx1).result⟩ := by
  simp [processFrom, hc, hv]

/-- Unfolding of the loop at a filter that is called and panics. -/
theorem processFrom_cons_panicked (i : Nat) (v : RequestFilter) (rest : List RequestFilter)
    (ctx ctx1 : RequestCtx) (msg : String) (hc : ctx.ShouldContinue = true)
    (hv : v.Process ctx = .panicked msg ctx1) :
    processFrom i (v :: rest) ctx = ⟨[i], .panicked msg ctx1⟩ := by
  simp [processFrom, hc, hv]

/-- When the filters of a prefix have run and left the continue flag set, the loop goes on
with the rest of the flow from the context the prefix left. -/
theorem processFrom_append (pre rest : List RequestFilter) :
    ∀ (i : Nat) (ctx c1 : RequestCtx),
      (processFrom i pre ctx).result = .returned c1 → c1.ShouldContinue = true →
      processFrom i (pre ++ rest) ctx =
        ⟨List.range' i pre.length ++ (processFrom (i + pre.length) rest c1).invoked,
          (processFrom (i + pre.length) rest c1).result⟩ := by
  induction pre with
  | nil =>
    intro i ctx c1 h _
    simp only [processFrom, Completion.returned.injEq] at h
    subst h
    simp
  | cons v pre1 ih =>
    intro i ctx c1 h hc1
    by_cases hc : ctx.ShouldContinue = true
    · cases hv : v.Process ctx with
      | panicked msg c =>
        rw [processFrom_cons_panicked i v pre1 ctx c msg hc hv] at h
        cases h
      | returned c =>
        rw [processFrom_cons_returned i v pre1 ctx c hc hv] at h
        have h2 := ih (i + 1) c c1 h hc1
        rw [List.cons_append, processFrom_cons_returned i v (pre1 ++ rest) ctx c hc hv, h2]
        simp [List.range'_succ, Nat.add_assoc, Nat.add_comm 1]
    · have hc0 : ctx.ShouldContinue = false := by simpa using hc
      rw [processFrom_of_not_continue i _ ctx hc0] at h
      cases h
      rw [hc0] at hc1
      cases hc1

/-- C1. Short circuit: when the filters before position k have run and filter k is called and
returns with the continue flag false, `FilterFlow.Process` calls exactly the filters at
positions 0..k, none after k, and ends with the context filter k produced. And a flow entered
with the continue flag already false calls no filter and returns the context unchanged. -/
theorem process_short_circuit :
    (∀ (id : String) (pre post : List RequestFilter) (f : RequestFilter) (ctx c1 c2 : RequestCtx),
      (FilterFlow.Process ⟨id, pre⟩ ctx).result = .returned c1 → c1.ShouldContinue = true →
      f.Process c1 = .returned c2 → c2.ShouldContinue = false →
      FilterFlow.Process ⟨id, pre ++ f :: post⟩ ctx =
        ⟨List.range (pre.length + 1), .returned c2⟩) ∧
    (∀ (flow : FilterFlow) (ctx : RequestCtx), ctx.ShouldContinue = false →
      flow.Process ctx = ⟨[], .returned ctx⟩) := by
  refine ⟨?_, ?_⟩
  · intro id pre post f ctx c1 c2 hpre hc1 hf hc2
    have h := processFrom_append pre (f :: post) 0 ctx c1 hpre hc1
    simp only [FilterFlow.Process]
    rw [h, processFrom_cons_returned _ f post c1 c2 hc1 hf,
      processFrom_of_not_continue _ post c2 hc2]
    simp [List.range_eq_range', List.range'_concat]
  · intro flow ctx h
    exact processFrom_of_not_continue 0 flow.Filters ctx h

/-- C1, at the flow [tag A, stop B, tag C]: only A and B are called, C leaves no tag. -/
theorem process_short_circuit_witness :
    FilterFlow.Process ⟨"f", [tagFilter "A"] ++ stopFilter "B" :: [tagFilter "C"]⟩ ctx0 =
      ⟨List.range 2, .returned ⟨false, false, ["A", "B"], [], []⟩⟩ ∧
    FilterFlow.Process ⟨"f", [tagFilter "C"]⟩ ⟨false, false, ["A", "B"], [], []⟩ =
      ⟨[], .returned ⟨false, false, ["A", "B"], [], []⟩⟩ :=
  ⟨process_short_circuit.1 "f" [tagFilter "A"] [tagFilter "C"] (stopFilter "B") ctx0
      ⟨true, false, ["A"], [], []⟩ ⟨false, false, ["A", "B"], [], []⟩ rfl rfl rfl rfl,
    process_short_circuit.2 ⟨"f", [tagFilter "C"]⟩ ⟨false, false, ["A", "B"], [], []⟩ rfl⟩

/-- The left fold of a flow that starts with `v` goes on from what `v` left. -/
theorem foldFilters_cons (v : RequestFilter) (rest : List RequestFilter) (ctx : RequestCtx) :
    foldFilters (v :: rest) ctx = foldFilters rest (v.Process ctx).value := by
  simp [foldFilters]

/-- When every filter is reached with the continue flag set and returns with it set, the loop
calls them all, in order, and returns the left fold. -/
theorem processFrom_all (fs : List RequestFilter) :
    ∀ (i : Nat) (ctx : RequestCtx), ctx.ShouldContinue = true →
      (∀ (k : Nat) (hk : k < fs.length), ∃ c : RequestCtx,
        (fs.get ⟨k, hk⟩).Process (foldFilters (fs.take k) ctx) = .returned c ∧
          c.ShouldContinue = true) →
      processFrom i fs ctx = ⟨List.range' i fs.length, .returned (foldFilters fs ctx)⟩ := by
  induction fs with
  | nil =>
    intro i ctx _ _
    simp [processFrom, foldFilters]
  | cons v rest ih =>
    intro i ctx h0 hkeep
    obtain ⟨c, hv, hc⟩ := hkeep 0 (by simp)
    simp only [List.take_zero, List.get_eq_getElem, List.getElem_cons_zero] at hv
    have hv0 : v.Process ctx = .returned c := by simpa [foldFilters] using hv
    have hrest : ∀ (k : Nat) (hk : k < rest.length), ∃ c2 : RequestCtx,
        (rest.get ⟨k, hk⟩).Process (foldFilters (rest.take k) c) = .returned c2 ∧
          c2.ShouldContinue = true := by
      intro k hk
      obtain ⟨c2, h1, h2⟩ := hkeep (k + 1) (by simpa using hk)
      refine ⟨c2, ?_, h2⟩
      simpa [foldFilters_cons, hv0, Completion.value] using h1
    rw [processFrom_cons_returned i v rest ctx c h0 hv0, ih (i + 1) c hc hrest,
      foldFilters_cons, hv0]
    simp [List.range'_succ, Completion.value]

/-- C2. Order: for a context whose continue flag is set on entry, when no filter of the flow
clears the flag (each filter, called on the context its predecessors left, returns with the
flag still set), `FilterFlow.Process` calls every filter exactly once, in list order, and the
context it returns is the left fold of the filters over the initial context. -/
theorem process_runs_all_in_order (flow : FilterFlow) (ctx : RequestCtx)
    (h0 : ctx.ShouldContinue = true)
    (hkeep : ∀ (k : Nat) (hk : k < flow.Filters.length), ∃ c : RequestCtx,
      (flow.Filters.get ⟨k, hk⟩).Process (foldFilters (flow.Filters.take k) ctx) = .returned c ∧
        c.ShouldContinue = true) :
    flow.Process ctx =
      ⟨List.range flow.Filters.length, .returned (foldFilters flow.Filters ctx)⟩ := by
  simp only [FilterFlow.Process]
  rw [processFrom_all flow.Filters 0 ctx h0 hkeep, List.range_eq_range']

/-- C2, at the flow [tag A, tag B, tag C]: positions 0, 1, 2 are called and the tags come in
that order. -/
theorem process_runs_all_in_order_witness :
    FilterFlow.Process ⟨"f", [tagFilter "A", tagFilter "B", tagFilter "C"]⟩ ctx0 =
      ⟨[0, 1, 2], .returned ⟨true, false, ["A", "B", "C"], [], []⟩⟩ :=
  process_runs_all_in_order ⟨"f", [tagFilter "A", tagFilter "B", tagFilter "C"]⟩ ctx0 rfl
    (fun k hk =>
      match k, hk with
      | 0, _ => ⟨_, rfl, rfl⟩
      | 1, _ => ⟨_, rfl, rfl⟩
      | 2, _ => ⟨_, rfl, rfl⟩
      | n + 3, h => absurd h (by simp))

/-- C5, refuted at the flow [panic A, tag B] on a fresh context: the panic of A is not trapped,
`FilterFlow.Process` does not return normally, and B is not called. -/
theorem process_panic_escapes_example :
    (FilterFlow.Process ⟨"f", [panicFilter "A", tagFilter "B"]⟩ ctx0).result.isReturned = false ∧
    FilterFlow.Process ⟨"f", [panicFilter "A", tagFilter "B"]⟩ ctx0 =
      ⟨[0], .panicked "boom" ⟨true, false, ["A"], [], []⟩⟩ := by
  constructor <;> rfl

/-- C5, amended. A panic of a filter is not trapped by `FilterFlow.Process`: when the filters
before position k have run and filter k is called and panics, the call of `Process` ends with
that same panic, the context is the one the panicking filter left (nothing marks it failed),
and no filter after k is called. -/
theorem process_panic_propagates (id : String) (pre post : List RequestFilter)
    (f : RequestFilter) (ctx c1 c2 : RequestCtx) (msg : String)
    (hpre : (FilterFlow.Process ⟨id, pre⟩ ctx).result = .returned c1)
    (hc1 : c1.ShouldContinue = true) (hf : f.Process c1 = .panicked msg c2) :
    FilterFlow.Process ⟨id, pre ++ f :: post⟩ ctx =
      ⟨List.range (pre.length + 1), .panicked msg c2⟩ := by
  have h := processFrom_append pre (f :: post) 0 ctx c1 hpre hc1
  simp only [FilterFlow.Process]
  rw [h, processFrom_cons_panicked _ f post c1 c2 msg hc1 hf]
  simp [List.range_eq_range', List.range'_concat]

/-- C5 amended, at the flow [tag A, panic B, tag C]. -/
theorem process_panic_propagates_witness :
    FilterFlow.Process ⟨"f", [tagFilter "A"] ++ panicFilter "B" :: [tagFilter "C"]⟩ ctx0 =
      ⟨List.range 2, .panicked "boom" ⟨true, false, ["A", "B"], [], []⟩⟩ :=
  process_panic_propagates "f" [tagFilter "A"] [tagFilter "C"] (panicFilter "B") ctx0
    ⟨true, false, ["A"], [], []⟩ ⟨true, false, ["A", "B"], [], []⟩ "boom" rfl rfl rfl

/-! ## Theorems: the flow registry -/

/-- Appending the filters of a list one by one appends the list. -/
theorem foldl_append_filters (xs : List RequestFilter) :
    ∀ fl : FilterFlow,
      xs.foldl (fun fl2 x => { fl2 with Filters := fl2.Filters ++ [x] }) fl =
        { fl with Filters := fl.Filters ++ xs } := by
  induction xs with
  | nil => intro fl; simp
  | cons x rest ih => intro fl; simp [ih]

/-- The method `JoinFilter` appends its arguments. -/
theorem joinFilter_eq (flow : FilterFlow) (fs : List RequestFilter) :
    flow.JoinFilter fs = { flow with Filters := flow.Filters ++ fs } := by
  simp [FilterFlow.JoinFilter, foldl_append_filters]

/-- The call `flow.JoinFlows(flow, temp)` appends to the receiver its own filters and then those
of `temp`. -/
theorem joinFlows_self (flow temp : FilterFlow) :
    flow.JoinFlows [flow, temp] =
      { flow with Filters := flow.Filters ++ flow.Filters ++ temp.Filters } := by
  simp [FilterFlow.JoinFlows, foldl_append_filters]

/-- What the package function `JoinFlows` computes when every id is stored in the flow map: at
each id the filters gathered so far are doubled before the filters of the flow are
appended. -/
theorem joinFlowsLoop_registered (r : Registry) (ids : List String) :
    ∀ (fls : List FilterFlow) (acc : FilterFlow),
      List.Forall₂ (fun id fl => r.flows id = some fl) ids fls →
      joinFlowsLoop r ids acc =
        (.ok { acc with
            Filters := fls.foldl (fun fs fl => fs ++ fs ++ fl.Filters) acc.Filters }, r) := by
  induction ids with
  | nil =>
    intro fls acc h
    cases h
    simp [joinFlowsLoop]
  | cons id rest ih =>
    intro fls acc h
    cases h with
    | cons hid hrest =>
      simp only [joinFlowsLoop, MustGetFlow, hid, joinFlows_self]
      rw [ih _ _ hrest]
      simp

/-- For a single id stored in the flow map, `JoinFlows` returns the filters of that flow. -/
theorem joinFlows_single (r : Registry) (id : String) (fl : FilterFlow)
    (h : r.flows id = some fl) : JoinFlows r [id] = (.ok ⟨"", fl.Filters⟩, r) := by
  simp [JoinFlows, joinFlowsLoop, MustGetFlow, h, joinFlows_self]

/-- C3, failing input: with the flows `a` = [A] and `b` = [B] registered, `JoinFlows("a", "b")`
returns the filters A, A, B: three filters, where the concatenation of the two flows has
two. -/
theorem joinFlows_duplicates_example :
    ∃ flow : FilterFlow, (JoinFlows registryAB ["a", "b"]).1 = .ok flow ∧
      flow.Filters.map (fun f => f.Name) = ["A", "A", "B"] ∧
      flow.Filters.length ≠ [tagFilter "A"].length + [tagFilter "B"].length :=
  ⟨⟨"", [tagFilter "A", tagFilter "A", tagFilter "B"]⟩, rfl, rfl, by decide⟩

/-- The instance made of a registered filter whose type reflection can instantiate. -/
theorem getFilterInstance_ok (r : Registry) (z : FilterConfig) (flt : RequestFilter)
    (hflt : r.filters z.Type_ = some flt) (hs : flt.shape.instantiable = true) :
    ∃ f : RequestFilter, GetFilterInstanceWithConfig r z = .ok f := by
  cases hsh : flt.shape <;>
    simp [GetFilterInstanceWithConfig, GetFilter, hflt, hsh, ReflectShape.instantiable] at hs ⊢

/-- The loop of `MustGetFlow` succeeds when every configured filter type is registered with a
type that reflection can instantiate, and gives one instance per filter configuration, in
order. -/
theorem materialize_ok (r : Registry) (cfgs : List FilterConfig) :
    ∀ v0 : FilterFlow,
      (∀ z ∈ cfgs, ∃ flt, r.filters z.Type_ = some flt ∧ flt.shape.instantiable = true) →
      ∃ fs : List RequestFilter,
        materialize r cfgs v0 = .ok { v0 with Filters := v0.Filters ++ fs } ∧
        List.Forall₂ (fun z f => GetFilterInstanceWithConfig r z = .ok f) cfgs fs := by
  induction cfgs with
  | nil => intro v0 _; exact ⟨[], by simp [materialize], List.Forall₂.nil⟩
  | cons z rest ih =>
    intro v0 h
    obtain ⟨flt, hflt, hs⟩ := h z (List.mem_cons_self z rest)
    obtain ⟨f, hinst⟩ := getFilterInstance_ok r z flt hflt hs
    obtain ⟨fs, hfs, hall⟩ := ih (v0.JoinFilter [f])
      (fun z1 hz1 => h z1 (List.mem_cons_of_mem z hz1))
    refine ⟨f :: fs, ?_, List.Forall₂.cons hinst hall⟩
    simp only [joinFilter_eq] at hfs
    simp only [materialize, hinst, joinFilter_eq, hfs]
    simp

/-- C4. Memoization by id. (1) When no flow is stored under `id`, a flow configuration is
registered under `id` and all its filter types are registered with a type that reflection can
instantiate, `MustGetFlow id` succeeds with one filter instance per filter configuration, in
order, and stores that flow under `id`.
(2) After any successful `MustGetFlow id` the flow is stored under `id`, and in every later
registry that still holds it there (whatever has happened to the configurations, for instance
a `RegisterFlowConfig` that replaced the one under `id`) `MustGetFlow id` returns the same
flow and changes nothing. (3) A flow registered with `RegisterFlow` is returned as
registered. -/
theorem mustGetFlow_memoizes :
    (∀ (r : Registry) (id : String) (cfg : FlowConfig),
      r.flows id = none → r.flowConfigs id = some cfg →
      (∀ z ∈ cfg.Filters, ∃ flt, r.filters z.Type_ = some flt ∧
        flt.shape.instantiable = true) →
      ∃ v : FilterFlow,
        MustGetFlow r id = (.ok v, { r with flows := mapSet r.flows id v }) ∧
        List.Forall₂ (fun z f => GetFilterInstanceWithConfig r z = .ok f) cfg.Filters v.Filters) ∧
    (∀ (r r1 : Registry) (id : String) (v : FilterFlow),
      MustGetFlow r id = (.ok v, r1) →
      r1.flows id = some v ∧
      (∀ r2 : Registry, r2.flows id = some v → MustGetFlow r2 id = (.ok v, r2)) ∧
      (∀ cfg2 : FlowConfig,
        MustGetFlow (RegisterFlowConfig r1 cfg2) id = (.ok v, RegisterFlowConfig r1 cfg2))) ∧
    (∀ (r : Registry) (flow : FilterFlow),
      MustGetFlow (RegisterFlow r flow) flow.ID = (.ok flow, RegisterFlow r flow)) := by
  have hmemo : ∀ (r2 : Registry) (id : String) (v : FilterFlow),
      r2.flows id = some v → MustGetFlow r2 id = (.ok v, r2) := by
    intro r2 id v h
    simp [MustGetFlow, h]
  refine ⟨?_, ?_, ?_⟩
  · intro r id cfg hnone hcfg hall
    obtain ⟨fs, hfs, hforall⟩ := materialize_ok r cfg.Filters ⟨"", []⟩ hall
    refine ⟨⟨"", fs⟩, ?_, hforall⟩
    simp only [List.nil_append] at hfs
    simp [MustGetFlow, hnone, GetFlowConfig, hcfg, hfs]
  · intro r r1 id v h
    have hstored : r1.flows id = some v := by
      unfold MustGetFlow at h
      cases hfl : r.flows id with
      | some w =>
        simp only [hfl, Prod.mk.injEq, Except.ok.injEq] at h
        obtain ⟨h1, h2⟩ := h
        subst h1 h2
        exact hfl
      | none =>
        simp only [hfl] at h
        cases hc : GetFlowConfig r id with
        | error e => simp [hc] at h
        | ok cfg =>
          simp only [hc] at h
          cases hm : materialize r cfg.Filters ⟨"", []⟩ with
          | error e => simp [hm] at h
          | ok w =>
            simp only [hm, Prod.mk.injEq, Except.ok.injEq] at h
            obtain ⟨h1, h2⟩ := h
            subst h1 h2
            simp [mapSet]
    refine ⟨hstored, fun r2 h2 => hmemo r2 id v h2, fun cfg2 => ?_⟩
    exact hmemo (RegisterFlowConfig r1 cfg2) id v (by simpa [RegisterFlowConfig] using hstored)
  · intro r flow
    exact hmemo (RegisterFlow r flow) flow.ID flow (by simp [RegisterFlow, mapSet])

/-- C4, on a registry with the filter `A` and the configuration `flow1`: the first call
materializes and stores a flow, and the call after `flow1` has been configured anew still
returns the stored flow. -/
theorem mustGetFlow_memoizes_witness :
    (∃ v : FilterFlow,
      MustGetFlow registry1 "flow1" =
        (.ok v, { registry1 with flows := mapSet registry1.flows "flow1" v }) ∧
      List.Forall₂ (fun z f => GetFilterInstanceWithConfig registry1 z = .ok f)
        flowConfig1.Filters v.Filters) ∧
    (∀ cfg2 : FlowConfig,
      MustGetFlow (RegisterFlowConfig (MustGetFlow registry1 "flow1").2 cfg2) "flow1" =
        (.ok ⟨"", [tagFilter "A"]⟩, RegisterFlowConfig (MustGetFlow registry1 "flow1").2 cfg2)) :=
  ⟨mustGetFlow_memoizes.1 registry1 "flow1" flowConfig1 rfl rfl
      (fun z hz => ⟨tagFilter "A", by
        simp only [flowConfig1, List.mem_singleton] at hz
        subst hz
        exact ⟨rfl, rfl⟩⟩),
    (mustGetFlow_memoizes.2.1 registry1 (MustGetFlow registry1 "flow1").2 "flow1"
      ⟨"", [tagFilter "A"]⟩ rfl).2.2⟩

/-- The instantiation of a filter configuration fails exactly when the filter it selects is
not registered, or is registered with a type that reflection cannot instantiate. -/
theorem getFilterInstance_failed_iff (r : Registry) (z : FilterConfig) :
    failed (GetFilterInstanceWithConfig r z) = true ↔
      r.filters z.Type_ = none ∨
        ∃ flt, r.filters z.Type_ = some flt ∧ flt.shape.instantiable = false := by
  cases hz : r.filters z.Type_ with
  | none => simp [GetFilterInstanceWithConfig, GetFilter, hz, failed]
  | some flt =>
    cases hsh : flt.shape <;>
      simp [GetFilterInstanceWithConfig, GetFilter, hz, hsh, failed, ReflectShape.instantiable]

/-- The loop of `MustGetFlow` fails exactly when the instantiation of one of the filter
configurations fails. -/
theorem materialize_failed_iff (r : Registry) (cfgs : List FilterConfig) :
    ∀ v0 : FilterFlow,
      failed (materialize r cfgs v0) = true ↔
        ∃ z ∈ cfgs, failed (GetFilterInstanceWithConfig r z) = true := by
  induction cfgs with
  | nil => intro v0; simp [materialize, failed]
  | cons z rest ih =>
    intro v0
    cases hz : GetFilterInstanceWithConfig r z with
    | error e => simp [materialize, hz, failed]
    | ok f =>
      simp only [materialize, hz, ih, List.mem_cons, exists_eq_or_imp]
      simp [failed]

/-- A call that is not a registration of a filter leaves the filter map alone, and so for the
other maps; `MustGetFlow` writes the flow map only. -/
theorem applyOp_maps (r : Registry) (op : RegistryOp) :
    (∀ name, (applyOp r op).filters name =
      match op with
      | .registerFilter f => if name = f.Name then some f else r.filters name
      | _ => r.filters name) ∧
    (∀ name, (applyOp r op).flowConfigs name =
      match op with
      | .registerFlowConfig c => if name = c.Name then some c else r.flowConfigs name
      | _ => r.flowConfigs name) ∧
    (∀ name, (applyOp r op).routingRules name =
      match op with
      | .registerRoutingRule c => if name = c.ID then some c else r.routingRules name
      | _ => r.routingRules name) ∧
    (∀ name, (applyOp r op).routerConfigs name =
      match op with
      | .registerRouterConfig c => if name = c.Name then some c else r.routerConfigs name
      | _ => r.routerConfigs name) := by
  have hm : ∀ id, (MustGetFlow r id).2.filters = r.filters ∧
      (MustGetFlow r id).2.flowConfigs = r.flowConfigs ∧
      (MustGetFlow r id).2.routingRules = r.routingRules ∧
      (MustGetFlow r id).2.routerConfigs = r.routerConfigs := by
    intro id
    unfold MustGetFlow
    split
    · simp
    · split
      · simp
      · split <;> simp
  cases op with
  | mustGetFlow id =>
    simp only [applyOp]
    obtain ⟨h1, h2, h3, h4⟩ := hm id
    simp [h1, h2, h3, h4]
  | _ =>
    simp [applyOp, RegisterFilter, RegisterFlow, RegisterFlowConfig, RegisterRoutingRule,
      RegisterRouterConfig, mapSet]

/-- After a sequence of calls, a name is absent from a configuration map exactly when it was
absent at the start and no call of the sequence registered it. -/
theorem applyOps_absent (ops : List RegistryOp) :
    ∀ (r : Registry) (name : String),
      ((applyOps r ops).filters name = none ↔
        r.filters name = none ∧ ∀ f, RegistryOp.registerFilter f ∈ ops → f.Name ≠ name) ∧
      ((applyOps r ops).flowConfigs name = none ↔
        r.flowConfigs name = none ∧
          ∀ c, RegistryOp.registerFlowConfig c ∈ ops → c.Name ≠ name) ∧
      ((applyOps r ops).routingRules name = none ↔
        r.routingRules name = none ∧
          ∀ c, RegistryOp.registerRoutingRule c ∈ ops → c.ID ≠ name) ∧
      ((applyOps r ops).routerConfigs name = none ↔
        r.routerConfigs name = none ∧
          ∀ c, RegistryOp.registerRouterConfig c ∈ ops → c.Name ≠ name) := by
  induction ops with
  | nil => intro r name; simp [applyOps]
  | cons op rest ih =>
    intro r name
    obtain ⟨i1, i2, i3, i4⟩ := ih (applyOp r op) name
    obtain ⟨m1, m2, m3, m4⟩ := applyOp_maps r op
    have e : applyOps r (op :: rest) = applyOps (applyOp r op) rest := by simp [applyOps]
    rw [e, i1, i2, i3, i4, m1, m2, m3, m4]
    cases op <;> simp only [List.mem_cons, reduceCtorEq, false_or,
      RegistryOp.registerFilter.injEq, RegistryOp.registerFlowConfig.injEq,
      RegistryOp.registerRoutingRule.injEq, RegistryOp.registerRouterConfig.injEq]
    all_goals refine ⟨?_, ?_, ?_, ?_⟩
    all_goals constructor
    all_goals intro hx
    all_goals try split at hx
    all_goals aesop

/-- C17, refuted on a registry in which the flow configuration `flowp` is registered and the
filter `P` it selects is registered too, as a pointer to its struct: no flow is stored under
`flowp`, nothing is missing from the maps, and `MustGetFlow` fails all the same, in the
reflective construction of the filter instance. -/
theorem mustGetFlow_fails_registered_counterexample :
    registryPointer.flows "flowp" = none ∧
    registryPointer.flowConfigs "flowp" = some flowConfigP ∧
    (∀ z ∈ flowConfigP.Filters, (registryPointer.filters z.Type_).isSome = true) ∧
    failed (MustGetFlow registryPointer "flowp").1 = true := by
  refine ⟨rfl, rfl, ?_, rfl⟩
  intro z hz
  simp only [flowConfigP, List.mem_singleton] at hz
  subst hz
  rfl

/-- C17, amended. `MustGetFlow id` fails iff no flow is stored under `id` and either no flow
configuration is registered under `id` or one of its filter configurations selects a filter
that is not registered or that is registered with a type the reflective construction cannot
instantiate (a value that is not a struct, such as a pointer, or a struct whose `Data` field
is a map of another type); when it fails the registry is left as it was. `GetFlowConfig`,
`GetRouter`, `GetRule` and `GetFilter` fail iff the name is absent from their map, which after
any sequence of registrations and flow lookups from the empty registry means that the name was
never registered. -/
theorem mustGetFlow_fails_iff :
    (∀ (r : Registry) (id : String),
      (failed (MustGetFlow r id).1 = true ↔
        r.flows id = none ∧
          (r.flowConfigs id = none ∨
            ∃ cfg, r.flowConfigs id = some cfg ∧
              ∃ z ∈ cfg.Filters, r.filters z.Type_ = none ∨
                ∃ flt, r.filters z.Type_ = some flt ∧ flt.shape.instantiable = false)) ∧
      (failed (MustGetFlow r id).1 = true → (MustGetFlow r id).2 = r)) ∧
    (∀ (r : Registry) (name : String),
      (failed (GetFlowConfig r name) = true ↔ r.flowConfigs name = none) ∧
      (failed (GetRouter r name) = true ↔ r.routerConfigs name = none) ∧
      (failed (GetRule r name) = true ↔ r.routingRules name = none) ∧
      (failed (GetFilter r name) = true ↔ r.filters name = none)) ∧
    (∀ (ops : List RegistryOp) (name : String),
      (failed (GetFlowConfig (applyOps Registry.empty ops) name) = true ↔
        ∀ c, RegistryOp.registerFlowConfig c ∈ ops → c.Name ≠ name) ∧
      (failed (GetRouter (applyOps Registry.empty ops) name) = true ↔
        ∀ c, RegistryOp.registerRouterConfig c ∈ ops → c.Name ≠ name) ∧
      (failed (GetRule (applyOps Registry.empty ops) name) = true ↔
        ∀ c, RegistryOp.registerRoutingRule c ∈ ops → c.ID ≠ name) ∧
      (failed (GetFilter (applyOps Registry.empty ops) name) = true ↔
        ∀ f, RegistryOp.registerFilter f ∈ ops → f.Name ≠ name)) := by
  have hget : ∀ (r : Registry) (name : String),
      (failed (GetFlowConfig r name) = true ↔ r.flowConfigs name = none) ∧
      (failed (GetRouter r name) = true ↔ r.routerConfigs name = none) ∧
      (failed (GetRule r name) = true ↔ r.routingRules name = none) ∧
      (failed (GetFilter r name) = true ↔ r.filters name = none) := by
    intro r name
    refine ⟨?_, ?_, ?_, ?_⟩
    · cases h : r.flowConfigs name <;> simp [GetFlowConfig, h, failed]
    · cases h : r.routerConfigs name <;> simp [GetRouter, h, failed]
    · cases h : r.routingRules name <;> simp [GetRule, h, failed]
    · cases h : r.filters name <;> simp [GetFilter, h, failed]
  refine ⟨?_, hget, ?_⟩
  · intro r id
    cases hfl : r.flows id with
    | some v => simp [MustGetFlow, hfl, failed]
    | none =>
      cases hc : r.flowConfigs id with
      | none => simp [MustGetFlow, hfl, GetFlowConfig, hc, failed]
      | some cfg =>
        have hm := materialize_failed_iff r cfg.Filters ⟨"", []⟩
        simp only [getFilterInstance_failed_iff] at hm
        cases hmat : materialize r cfg.Filters ⟨"", []⟩ with
        | error e =>
          rw [hmat] at hm
          have hex := hm.mp rfl
          simp only [MustGetFlow, hfl, GetFlowConfig, hc, hmat, failed, true_and, reduceCtorEq,
            false_or, Option.some.injEq, exists_eq_left', implies_true, and_true, true_iff]
          exact hex
        | ok v =>
          rw [hmat] at hm
          have hex : ¬ ∃ z ∈ cfg.Filters, r.filters z.Type_ = none ∨
              ∃ flt, r.filters z.Type_ = some flt ∧ flt.shape.instantiable = false :=
            fun h => by
              have := hm.mpr h
              simp [failed] at this
          simp only [MustGetFlow, hfl, GetFlowConfig, hc, hmat, failed, true_and, reduceCtorEq,
            false_or, Option.some.injEq, exists_eq_left', Bool.false_eq_true, false_iff,
            false_implies, and_true]
          exact hex
  · intro ops name
    obtain ⟨a1, a2, a3, a4⟩ := applyOps_absent ops Registry.empty name
    obtain ⟨g1, g2, g3, g4⟩ := hget (applyOps Registry.empty ops) name
    rw [g1, g2, g3, g4, a1, a2, a3, a4]
    simp [Registry.empty]

/-- C17 amended, on a registry with the filter `A` and the flow configuration `flow1`: the
lookup of the unknown flow `nope` fails and leaves the registry as it was, and `GetFilter`
fails for the filter `B`, which no call registered. -/
theorem mustGetFlow_fails_iff_witness :
    failed (MustGetFlow registry1 "nope").1 = true ∧
    (MustGetFlow registry1 "nope").2 = registry1 ∧
    failed (GetFilter (applyOps Registry.empty
      [.registerFilter (tagFilter "A"), .registerFlowConfig flowConfig1]) "B") = true :=
  ⟨((mustGetFlow_fails_iff.1 registry1 "nope").1).mpr ⟨rfl, Or.inl rfl⟩,
    (mustGetFlow_fails_iff.1 registry1 "nope").2 rfl,
    ((mustGetFlow_fails_iff.2.2 [.registerFilter (tagFilter "A"),
      .registerFlowConfig flowConfig1] "B").2.2.2).mpr (fun f hf => by
        simp only [List.mem_cons, RegistryOp.registerFilter.injEq, reduceCtorEq,
          List.mem_singleton, List.not_mem_nil, or_false] at hf
        subst hf
        decide)⟩

/-! ## Theorems: the index diff merger -/

namespace IndexDiff

/-- One unfolding of the loop at `COMPARE`. -/
theorem compareLoop_unfold (msgA msgB : CompareItem) (left right : List CompareItem) :
    compareLoop msgA msgB left right =
      ⟨msgA, msgB, (compareStep msgA msgB).1⟩ ::
        match receive (compareStep msgA msgB).2 msgA msgB left right with
        | none => []
        | some (a, b, left1, right1) => compareLoop a b left1 right1 := by
  rw [compareLoop]
  split <;> simp [*]

/-- After a pass that advances only the source, the loop receives from the source. -/
theorem compareLoop_source (msgA msgB : CompareItem) (left right : List CompareItem)
    (h : (compareStep msgA msgB).2 = .source) :
    compareLoop msgA msgB left right =
      ⟨msgA, msgB, (compareStep msgA msgB).1⟩ ::
        match left with
        | [] => []
        | a1 :: left1 => compareLoop a1 msgB left1 right := by
  rw [compareLoop_unfold, h]
  cases left <;> simp [receive]

/-- After a pass that advances only the target, the loop receives from the target. -/
theorem compareLoop_target (msgA msgB : CompareItem) (left right : List CompareItem)
    (h : (compareStep msgA msgB).2 = .target) :
    compareLoop msgA msgB left right =
      ⟨msgA, msgB, (compareStep msgA msgB).1⟩ ::
        match right with
        | [] => []
        | b1 :: right1 => compareLoop msgA b1 left right1 := by
  rw [compareLoop_unfold, h]
  cases right <;> simp [receive]

/-- After a pass that advances both sides, the loop goes to `MOVEALL`. -/
theorem compareLoop_both (msgA msgB : CompareItem) (left right : List CompareItem)
    (h : (compareStep msgA msgB).2 = .both) :
    compareLoop msgA msgB left right =
      ⟨msgA, msgB, (compareStep msgA msgB).1⟩ :: processMsg left right := by
  rw [compareLoop_unfold, h]
  simp only [receive, processMsg]

/-- C6. The merge step at heads a (source) and b (target): key(a) < key(b) emits one
OnlyInSource record for a and receives only from the source; key(a) > key(b) emits one
OnlyInTarget record for b and receives only from the target; equal keys with different hashes
emit one DiffBoth record with both items and receive from both; equal keys and hashes emit
nothing and receive from both. On the scenario streams the emitted records are OnlyInSource a,
OnlyInTarget b, DiffBoth c, in that order, and nothing for d. -/
theorem processMsg_merge_step :
    (∀ (a b : CompareItem) (left right : List CompareItem),
      (a.CompareKey b < 0 →
        compareLoop a b left right =
          ⟨a, b, some ⟨"OnlyInSource", a.Key, some a, none⟩⟩ ::
            match left with
            | [] => []
            | a1 :: left1 => compareLoop a1 b left1 right) ∧
      (a.CompareKey b > 0 →
        compareLoop a b left right =
          ⟨a, b, some ⟨"OnlyInTarget", b.Key, none, some b⟩⟩ ::
            match right with
            | [] => []
            | b1 :: right1 => compareLoop a b1 left right1) ∧
      (a.CompareKey b = 0 → a.CompareHash b ≠ 0 →
        compareLoop a b left right =
          ⟨a, b, some ⟨"DiffBoth", b.Key, some a, some b⟩⟩ :: processMsg left right) ∧
      (a.CompareKey b = 0 → a.CompareHash b = 0 →
        compareLoop a b left right = ⟨a, b, none⟩ :: processMsg left right)) ∧
    emittedRecords scenarioSource scenarioTarget =
      [⟨"OnlyInSource", ascii "a", some (item "a" "H1"), none⟩,
       ⟨"OnlyInTarget", ascii "b", none, some (item "b" "H2")⟩,
       ⟨"DiffBoth", ascii "c", some (item "c" "H3"), some (item "c" "H3x")⟩] := by
  refine ⟨fun a b left right => ⟨?_, ?_, ?_, ?_⟩, ?_⟩
  · intro h
    have h2 : ¬ a.CompareKey b > 0 := by omega
    rw [compareLoop_source a b left right (by simp [compareStep, h, h2])]
    simp [compareStep, h, h2]
  · intro h
    rw [compareLoop_target a b left right (by simp [compareStep, h])]
    simp [compareStep, h]
  · intro h hh
    rw [compareLoop_both a b left right (by simp [compareStep, h, hh])]
    simp [compareStep, h, hh]
  · intro h hh
    rw [compareLoop_both a b left right (by simp [compareStep, h, hh])]
    simp [compareStep, h, hh]
  · simp [emittedRecords, scenarioSource, scenarioTarget, processMsg, moveAll, receive,
      compareLoop_unfold, compareStep, CompareItem.CompareKey, CompareItem.CompareHash, Compare,
      item, ascii, NewCompareItem]

/-- C6, at concrete heads: a before b, z after b, c against c with another hash, d against an
equal d. -/
theorem processMsg_merge_step_witness :
    compareLoop (item "a" "H1") (item "b" "H2") [item "c" "H3"] [] =
      [⟨item "a" "H1", item "b" "H2", some ⟨"OnlyInSource", ascii "a", some (item "a" "H1"), none⟩⟩,
       ⟨item "c" "H3", item "b" "H2", some ⟨"OnlyInTarget", ascii "b", none, some (item "b" "H2")⟩⟩] ∧
    compareLoop (item "c" "H3") (item "c" "H3x") [] [] =
      [⟨item "c" "H3", item "c" "H3x",
        some ⟨"DiffBoth", ascii "c", some (item "c" "H3"), some (item "c" "H3x")⟩⟩] ∧
    compareLoop (item "d" "H4") (item "d" "H4") [] [] =
      [⟨item "d" "H4", item "d" "H4", none⟩] :=
  ⟨((processMsg_merge_step.1 (item "a" "H1") (item "b" "H2") [item "c" "H3"] []).1
      (by decide)).trans
      (congrArg _ ((processMsg_merge_step.1 (item "c" "H3") (item "b" "H2") [] []).2.1
        (by decide))),
    (processMsg_merge_step.1 (item "c" "H3") (item "c" "H3x") [] []).2.2.1 (by decide) (by decide),
    (processMsg_merge_step.1 (item "d" "H4") (item "d" "H4") [] []).2.2.2 (by decide) (by decide)⟩

/-- With nothing to receive on one of the channels, `processMsg` makes no pass at all. -/
theorem processMsg_exhausted (items : List CompareItem) :
    processMsg items [] = [] ∧ processMsg [] items = [] := by
  cases items <;> simp [processMsg, moveAll]

/-- C7, failing input: source [(a,H1)], target [(b,H2),(c,H3)]. The source is exhausted after
a; the only record emitted is OnlyInSource a, then the receive on the source blocks: the
remaining target items b and c give no OnlyInTarget record. -/
theorem processMsg_residual_not_drained_example :
    emittedRecords [item "a" "H1"] [item "b" "H2", item "c" "H3"] =
      [⟨"OnlyInSource", ascii "a", some (item "a" "H1"), none⟩] ∧
    (processMsg [item "a" "H1"] [item "b" "H2", item "c" "H3"]).length = 1 := by
  simp [emittedRecords, processMsg, moveAll, receive, compareLoop_unfold, compareStep,
    CompareItem.CompareKey, CompareItem.CompareHash, Compare, item, ascii, NewCompareItem]

/-- C8, failing input: source [(a,H1),(b,H2)], target [(a,H1)]. The key a is dropped as equal,
then `MOVEALL` blocks on the exhausted target: nothing is emitted, and the input key b is
neither reported nor matched. -/
theorem processMsg_key_unreported_example :
    emittedRecords [item "a" "H1", item "b" "H2"] [item "a" "H1"] = [] ∧
    silentKeys [item "a" "H1", item "b" "H2"] [item "a" "H1"] = [ascii "a"] ∧
    ascii "b" ∈ ([item "a" "H1", item "b" "H2"] ++ [item "a" "H1"]).map (fun i => i.Key) ∧
    ascii "b" ∉
      (emittedRecords [item "a" "H1", item "b" "H2"] [item "a" "H1"]).map (fun d => d.Key) ++
        silentKeys [item "a" "H1", item "b" "H2"] [item "a" "H1"] := by
  simp [emittedRecords, silentKeys, processMsg, moveAll, receive, compareLoop_unfold,
    compareStep, CompareItem.CompareKey, CompareItem.CompareHash, Compare, item, ascii,
    NewCompareItem]

/-! ### The sort phase -/

/-- Comparing the other way round negates the result. -/
theorem Compare_swap (a : Bytes) : ∀ b : Bytes, Compare b a = -Compare a b := by
  induction a with
  | nil => intro b; cases b <;> simp [Compare]
  | cons x xs ih =>
    intro b
    cases b with
    | nil => simp [Compare]
    | cons y ys =>
      simp only [Compare]
      rcases Nat.lt_trichotomy x y with h | h | h
      · have h2 : ¬ y < x := by omega
        simp [h, h2]
      · subst h
        simp [ih ys]
      · have h2 : ¬ x < y := by omega
        simp [h, h2]

/-- The order of `bytes.Compare` is transitive. -/
theorem Compare_trans (a : Bytes) :
    ∀ b c : Bytes, Compare a b ≤ 0 → Compare b c ≤ 0 → Compare a c ≤ 0 := by
  induction a with
  | nil => intro b c _ _; cases c <;> simp [Compare]
  | cons x xs ih =>
    intro b c hab hbc
    cases b with
    | nil => simp [Compare] at hab
    | cons y ys =>
      cases c with
      | nil => simp [Compare] at hbc
      | cons z zs =>
        simp only [Compare] at hab hbc ⊢
        by_cases hxy : x < y
        · have hxz : x < z := by
            by_cases hyz : y < z
            · omega
            · by_cases hzy : z < y
              · simp [hyz, hzy] at hbc
              · omega
          simp [hxz]
        · by_cases hyx : y < x
          · simp [hxy, hyx] at hab
          · have hxy2 : x = y := by omega
            subst hxy2
            simp only [hxy, if_false] at hab
            by_cases hxz : x < z
            · simp [hxz]
            · by_cases hzx : z < x
              · simp [hxz, hzx] at hbc
              · simp only [hxz, hzx, if_false] at hbc ⊢
                exact ih ys zs hab hbc

/-- The write loop keeps every line, in order. -/
theorem writeLoop_concat (ls : List Bytes) :
    ∀ buffer sortedFile : List Bytes,
      (writeLoop ls buffer sortedFile).2 ++ (writeLoop ls buffer sortedFile).1 =
        sortedFile ++ buffer ++ ls := by
  induction ls with
  | nil => intro buffer sortedFile; simp [writeLoop]
  | cons d rest ih =>
    intro buffer sortedFile
    simp only [writeLoop]
    split
    · rw [ih]; simp
    · rw [ih]; simp

/-- When no sorted file exists, the sort phase writes the lines of the file in the order of the
sorter. -/
theorem sortPhase_none (file : List Bytes) : sortPhase none file = sorterSort file := by
  have h := writeLoop_concat (sorterSort file) [] []
  simp only [sortPhase]
  cases hw : writeLoop (sorterSort file) [] [] with
  | mk buffer sortedFile =>
    rw [hw] at h
    simp only [List.append_nil, List.nil_append] at h
    simp only
    split
    · exact h
    · rename_i hsum
      cases buffer with
      | nil => simpa using h
      | cons b bs =>
        exfalso
        apply hsum
        simp only [List.map_cons, List.sum_cons]
        omega

/-- Reading a run of bytes without comma extends the current field. -/
theorem fieldsAux_run (key : Bytes) (hk : comma ∉ key) :
    ∀ (rest cur : Bytes),
      fieldsAux (fun r => r == comma) (key ++ rest) cur =
        fieldsAux (fun r => r == comma) rest (cur ++ key) := by
  induction key with
  | nil => intro rest cur; simp
  | cons c key1 ih =>
    intro rest cur
    have hc : c ≠ comma := fun h => hk (by simp [h])
    have hk1 : comma ∉ key1 := fun h => hk (List.mem_cons_of_mem c h)
    rw [List.cons_append, fieldsAux]
    simp only [beq_iff_eq, hc, if_false]
    rw [ih hk1]
    simp

/-- A well-formed line `key,hash` is read as the item with that key and that hash. -/
theorem readLine_wellFormed (key hash : Bytes) (hk : key ≠ []) (hh : hash ≠ [])
    (hkc : comma ∉ key) (hhc : comma ∉ hash) :
    readLine (key ++ comma :: hash) = some { Key := key, Hash := hash } := by
  have h1 := fieldsAux_run key hkc (comma :: hash) []
  have h2 := fieldsAux_run hash hhc [] []
  simp only [List.append_nil, List.nil_append] at h1 h2
  have hke : key.isEmpty = false := by cases key <;> simp at hk ⊢
  have hhe : hash.isEmpty = false := by cases hash <;> simp at hh ⊢
  have h3 : FieldsFunc (key ++ comma :: hash) (fun r => r == comma) = [key, hash] := by
    simp only [FieldsFunc]
    rw [h1]
    simp only [fieldsAux, beq_self_eq_true, if_true, hke]
    rw [h2]
    simp [fieldsAux, hhe]
  simp [readLine, h3]

/-- When no byte of the first key is below or equal to the comma, the order of two lines
`key,hash` is the order of their keys. -/
theorem compare_key_of_line (k1 : Bytes) :
    ∀ (k2 h1 h2 : Bytes), (∀ c ∈ k1, comma < c) →
      Compare (k1 ++ comma :: h1) (k2 ++ comma :: h2) ≤ 0 → Compare k1 k2 ≤ 0 := by
  induction k1 with
  | nil => intro k2 h1 h2 _ _; cases k2 <;> simp [Compare]
  | cons x xs ih =>
    intro k2 h1 h2 hk h
    have hx : comma < x := hk x (List.mem_cons_self x xs)
    cases k2 with
    | nil =>
      exfalso
      simp only [List.cons_append, List.nil_append, Compare] at h
      have h3 : ¬ x < comma := by omega
      simp [h3, hx] at h
    | cons y ys =>
      simp only [List.cons_append, Compare] at h ⊢
      by_cases hxy : x < y
      · simp [hxy]
      · by_cases hyx : y < x
        · simp [hxy, hyx] at h
        · simp only [hxy, hyx, if_false] at h ⊢
          exact ih ys h1 h2 (fun c hc => hk c (List.mem_cons_of_mem x hc)) h

/-- C9, failing input: a source file with the well-formed lines `a,h2`, `a!,h1`, `b,h3` and a
target file with the lines `a,h2`, `b,h3`. The sorter compares whole lines, so it puts `a!,h1`
before `a,h2` (the byte of `!` is below that of the comma): the reader sends the key `a!` and
then the strictly smaller key `a`. The merger, which compares keys only, then reports the
document `a`, identical on both sides, as OnlyInTarget and as OnlyInSource. -/
theorem sorted_file_breaks_merge_example :
    (∀ line ∈ prefixSourceFile, WellFormed line) ∧
    readSorted (sortPhase none prefixSourceFile) =
      [item "a!" "h1", item "a" "h2", item "b" "h3"] ∧
    (item "a!" "h1").CompareKey (item "a" "h2") > 0 ∧
    ¬ List.Chain' (fun x y : CompareItem => x.CompareKey y ≤ 0)
      (readSorted (sortPhase none prefixSourceFile)) ∧
    readSorted (sortPhase none prefixTargetFile) = [item "a" "h2", item "b" "h3"] ∧
    emittedRecords (readSorted (sortPhase none prefixSourceFile))
        (readSorted (sortPhase none prefixTargetFile)) =
      [⟨"OnlyInTarget", ascii "a", none, some (item "a" "h2")⟩,
       ⟨"OnlyInSource", ascii "a!", some (item "a!" "h1"), none⟩,
       ⟨"OnlyInSource", ascii "a", some (item "a" "h2"), none⟩] := by
  have hsrc : readSorted (sortPhase none prefixSourceFile) =
      [item "a!" "h1", item "a" "h2", item "b" "h3"] := by decide
  have htgt : readSorted (sortPhase none prefixTargetFile) =
      [item "a" "h2", item "b" "h3"] := by decide
  refine ⟨?_, hsrc, by decide, ?_, htgt, ?_⟩
  · intro line hl
    simp only [prefixSourceFile, List.mem_cons, List.mem_singleton, List.not_mem_nil,
      or_false] at hl
    rcases hl with h | h | h
    · exact ⟨ascii "a", ascii "h2", by rw [h]; decide, by decide, by decide, by decide, by decide⟩
    · exact ⟨ascii "a!", ascii "h1", by rw [h]; decide, by decide, by decide, by decide,
        by decide⟩
    · exact ⟨ascii "b", ascii "h3", by rw [h]; decide, by decide, by decide, by decide, by decide⟩
  · rw [hsrc]
    intro hc
    have hrel := List.Chain'.rel_head hc
    revert hrel
    decide
  · rw [hsrc, htgt]
    simp [emittedRecords, processMsg, moveAll, receive, compareLoop_unfold, compareStep,
      CompareItem.CompareKey, CompareItem.CompareHash, Compare, item, ascii, NewCompareItem]

/-- Where the two orders agree: for an input file of well-formed `key,hash` lines in which no
key contains a byte below the comma (0x2C), the order of whole lines is also an order of the
keys, and the items read from the sorted file are non-decreasing by key. -/
theorem sortPhase_key_order_of_high_keys (file : List Bytes)
    (hfile : ∀ line ∈ file, ∃ key hash : Bytes, line = key ++ comma :: hash ∧ key ≠ [] ∧
      hash ≠ [] ∧ comma ∉ key ∧ comma ∉ hash ∧ ∀ c ∈ key, comma < c) :
    List.Pairwise (fun x y : CompareItem => x.CompareKey y ≤ 0)
      (readSorted (sortPhase none file)) := by
  haveI : IsTotal Bytes lineLE := ⟨fun a b => by
    have h := Compare_swap a b
    simp only [lineLE]
    omega⟩
  haveI : IsTrans Bytes lineLE := ⟨fun a b c => Compare_trans a b c⟩
  rw [sortPhase_none]
  have hsorted : List.Pairwise lineLE (sorterSort file) := List.sorted_insertionSort lineLE file
  have hmem : ∀ line ∈ sorterSort file, line ∈ file := fun line h =>
    (List.perm_insertionSort lineLE file).mem_iff.mp h
  simp only [readSorted]
  refine List.pairwise_filterMap.mpr (hsorted.imp_of_mem ?_)
  intro l1 l2 hl1 hl2 hle x hx y hy
  obtain ⟨k1, h1, e1, n1, m1, c1, d1, g1⟩ := hfile l1 (hmem l1 hl1)
  obtain ⟨k2, h2, e2, n2, m2, c2, d2, _⟩ := hfile l2 (hmem l2 hl2)
  subst e1 e2
  rw [readLine_wellFormed k1 h1 n1 m1 c1 d1] at hx
  rw [readLine_wellFormed k2 h2 n2 m2 c2 d2] at hy
  simp only [Option.mem_def, Option.some.injEq] at hx hy
  subst hx hy
  exact compare_key_of_line k1 k2 h1 h2 g1 hle

/-! ### The sorted-file reader -/

/-- At the end of the line the open field, if any, is the last field. -/
theorem fieldsAux_end (cur : Bytes) (hcur : cur ≠ []) :
    fieldsAux (fun r => r == comma) [] cur = [cur] := by
  cases cur with
  | nil => exact absurd rfl hcur
  | cons c cs => simp [fieldsAux]

/-- A comma read with no field open is dropped. -/
theorem fieldsAux_skip (rest : Bytes) :
    fieldsAux (fun r => r == comma) (comma :: rest) [] =
      fieldsAux (fun r => r == comma) rest [] := by
  simp [fieldsAux]

/-- A comma closes the open field. -/
theorem fieldsAux_close (cur rest : Bytes) (hcur : cur ≠ []) :
    fieldsAux (fun r => r == comma) (comma :: rest) cur =
      cur :: fieldsAux (fun r => r == comma) rest [] := by
  cases cur with
  | nil => exact absurd rfl hcur
  | cons c cs => simp [fieldsAux]

/-- Any other byte extends the open field. -/
theorem fieldsAux_other (c : Nat) (cur rest : Bytes) (hc : c ≠ comma) :
    fieldsAux (fun r => r == comma) (c :: rest) cur =
      fieldsAux (fun r => r == comma) rest (cur ++ [c]) := by
  simp [fieldsAux, hc]

/-- A run of commas read with no field open gives no field. -/
theorem fieldsAux_commas (n : Nat) (rest : Bytes) :
    fieldsAux (fun r => r == comma) (List.replicate n comma ++ rest) [] =
      fieldsAux (fun r => r == comma) rest [] := by
  induction n with
  | zero => simp
  | succ n ih => rw [List.replicate_succ, List.cons_append, fieldsAux_skip, ih]

/-- With a field open there is at least one field. -/
theorem fieldsAux_ne_nil (s : Bytes) :
    ∀ cur : Bytes, cur ≠ [] → fieldsAux (fun r => r == comma) s cur ≠ [] := by
  induction s with
  | nil => intro cur hcur; rw [fieldsAux_end cur hcur]; simp
  | cons c rest ih =>
    intro cur hcur
    by_cases hc : c = comma
    · subst hc
      rw [fieldsAux_close cur rest hcur]
      simp
    · rw [fieldsAux_other c cur rest hc]
      exact ih (cur ++ [c]) (by simp)

/-- No field at all: the line is made of commas only. -/
theorem fieldsAux_eq_nil (s : Bytes) :
    fieldsAux (fun r => r == comma) s [] = [] → ∃ n, s = List.replicate n comma := by
  induction s with
  | nil => intro _; exact ⟨0, rfl⟩
  | cons c rest ih =>
    intro h
    by_cases hc : c = comma
    · subst hc
      rw [fieldsAux_skip] at h
      obtain ⟨n, hn⟩ := ih h
      exact ⟨n + 1, by rw [hn, List.replicate_succ]⟩
    · rw [fieldsAux_other c [] rest hc] at h
      exact absurd h (fieldsAux_ne_nil rest ([] ++ [c]) (by simp))

/-- One field, with a field open: the rest of the field, then commas only. -/
theorem fieldsAux_eq_one_open (s : Bytes) :
    ∀ cur h : Bytes, cur ≠ [] → fieldsAux (fun r => r == comma) s cur = [h] →
      ∃ (p : Bytes) (l : Nat), h = cur ++ p ∧ comma ∉ p ∧ s = p ++ List.replicate l comma := by
  induction s with
  | nil =>
    intro cur h hcur hf
    rw [fieldsAux_end cur hcur] at hf
    exact ⟨[], 0, by simpa using (List.cons.inj hf).1.symm, by simp, by simp⟩
  | cons c rest ih =>
    intro cur h hcur hf
    by_cases hc : c = comma
    · subst hc
      rw [fieldsAux_close cur rest hcur] at hf
      obtain ⟨h1, h2⟩ := List.cons.inj hf
      obtain ⟨n, hn⟩ := fieldsAux_eq_nil rest h2
      exact ⟨[], n + 1, by simpa using h1.symm, by simp, by rw [hn, List.replicate_succ]; simp⟩
    · rw [fieldsAux_other c cur rest hc] at hf
      obtain ⟨p, l, hp1, hp2, hp3⟩ := ih (cur ++ [c]) h (by simp) hf
      refine ⟨c :: p, l, by simpa using hp1, ?_, by rw [hp3]; simp⟩
      intro hmem
      rcases List.mem_cons.mp hmem with h3 | h3
      · exact hc h3.symm
      · exact hp2 h3

/-- One field, with no field open: commas, the field, commas. -/
theorem fieldsAux_eq_one (s : Bytes) :
    ∀ h : Bytes, fieldsAux (fun r => r == comma) s [] = [h] →
      h ≠ [] ∧ comma ∉ h ∧
        ∃ j l : Nat, s = List.replicate j comma ++ h ++ List.replicate l comma := by
  induction s with
  | nil => intro h hf; simp [fieldsAux] at hf
  | cons c rest ih =>
    intro h hf
    by_cases hc : c = comma
    · subst hc
      rw [fieldsAux_skip] at hf
      obtain ⟨h1, h2, j, l, h3⟩ := ih h hf
      exact ⟨h1, h2, j + 1, l, by rw [h3, List.replicate_succ]; simp⟩
    · rw [fieldsAux_other c [] rest hc] at hf
      obtain ⟨p, l, hp1, hp2, hp3⟩ := fieldsAux_eq_one_open rest ([] ++ [c]) h (by simp) hf
      simp only [List.nil_append, List.singleton_append] at hp1
      refine ⟨by rw [hp1]; simp, ?_, 0, l, by rw [hp1, hp3]; simp⟩
      rw [hp1]
      intro hmem
      rcases List.mem_cons.mp hmem with h3 | h3
      · exact hc h3.symm
      · exact hp2 h3

/-- Two fields, with a field open. -/
theorem fieldsAux_eq_two_open (s : Bytes) :
    ∀ cur k h : Bytes, cur ≠ [] → fieldsAux (fun r => r == comma) s cur = [k, h] →
      ∃ (p : Bytes) (j l : Nat), k = cur ++ p ∧ comma ∉ p ∧ h ≠ [] ∧ comma ∉ h ∧
        s = p ++ List.replicate (j + 1) comma ++ h ++ List.replicate l comma := by
  induction s with
  | nil =>
    intro cur k h hcur hf
    rw [fieldsAux_end cur hcur] at hf
    simp at hf
  | cons c rest ih =>
    intro cur k h hcur hf
    by_cases hc : c = comma
    · subst hc
      rw [fieldsAux_close cur rest hcur] at hf
      obtain ⟨h1, h2⟩ := List.cons.inj hf
      obtain ⟨g1, g2, j, l, g3⟩ := fieldsAux_eq_one rest h h2
      exact ⟨[], j, l, by simpa using h1.symm, by simp, g1, g2,
        by rw [g3, List.replicate_succ]; simp⟩
    · rw [fieldsAux_other c cur rest hc] at hf
      obtain ⟨p, j, l, hp1, hp2, hp3, hp4, hp5⟩ := ih (cur ++ [c]) k h (by simp) hf
      refine ⟨c :: p, j, l, by simpa using hp1, ?_, hp3, hp4, by rw [hp5]; simp⟩
      intro hmem
      rcases List.mem_cons.mp hmem with h3 | h3
      · exact hc h3.symm
      · exact hp2 h3

/-- Two fields, with no field open. -/
theorem fieldsAux_eq_two (s : Bytes) :
    ∀ k h : Bytes, fieldsAux (fun r => r == comma) s [] = [k, h] →
      k ≠ [] ∧ comma ∉ k ∧ h ≠ [] ∧ comma ∉ h ∧
        ∃ i j l : Nat, s = List.replicate i comma ++ k ++ List.replicate (j + 1) comma ++ h ++
          List.replicate l comma := by
  induction s with
  | nil => intro k h hf; simp [fieldsAux] at hf
  | cons c rest ih =>
    intro k h hf
    by_cases hc : c = comma
    · subst hc
      rw [fieldsAux_skip] at hf
      obtain ⟨h1, h2, h3, h4, i, j, l, h5⟩ := ih k h hf
      exact ⟨h1, h2, h3, h4, i + 1, j, l, by rw [h5]; simp [List.replicate_succ]⟩
    · rw [fieldsAux_other c [] rest hc] at hf
      obtain ⟨p, j, l, hp1, hp2, hp3, hp4, hp5⟩ :=
        fieldsAux_eq_two_open rest ([] ++ [c]) k h (by simp) hf
      simp only [List.nil_append, List.singleton_append] at hp1
      refine ⟨by rw [hp1]; simp, ?_, hp3, hp4, 0, j, l, by rw [hp1, hp5]; simp⟩
      rw [hp1]
      intro hmem
      rcases List.mem_cons.mp hmem with h3 | h3
      · exact hc h3.symm
      · exact hp2 h3

/-- A key and a hash without comma, separated by commas and with commas around them, are the
two fields of the line. -/
theorem fieldsAux_of_shape (k h : Bytes) (i j l : Nat) (hk : k ≠ []) (hh : h ≠ [])
    (hkc : comma ∉ k) (hhc : comma ∉ h) :
    fieldsAux (fun r => r == comma)
      (List.replicate i comma ++ k ++ List.replicate (j + 1) comma ++ h ++
        List.replicate l comma) [] = [k, h] := by
  have e1 : List.replicate i comma ++ k ++ List.replicate (j + 1) comma ++ h ++
      List.replicate l comma =
      List.replicate i comma ++ (k ++ (comma :: (List.replicate j comma ++
        (h ++ List.replicate l comma)))) := by
    simp [List.replicate_succ]
  rw [e1, fieldsAux_commas, fieldsAux_run k hkc, List.nil_append, fieldsAux_close k _ hk,
    fieldsAux_commas, fieldsAux_run h hhc, List.nil_append]
  cases l with
  | zero => simp [fieldsAux_end h hh]
  | succ n =>
    rw [List.replicate_succ, fieldsAux_close h _ hh]
    have := fieldsAux_commas n []
    simp only [List.append_nil] at this
    rw [this]
    simp [fieldsAux]

/-- The reader makes an item of a line exactly when the line has two fields. -/
theorem readLine_eq_some (line : Bytes) (it : CompareItem) :
    readLine line = some it ↔ FieldsFunc line (fun r => r == comma) = [it.Key, it.Hash] := by
  unfold readLine
  split
  · rename_i id hash heq
    rw [heq]
    constructor
    · intro h
      cases h
      rfl
    · intro h
      obtain ⟨h1, h2⟩ := List.cons.inj h
      have h3 := (List.cons.inj h2).1
      cases it
      simp_all
  · rename_i hne
    constructor
    · intro h; cases h
    · intro h
      exact absurd h (hne it.Key it.Hash)

/-- C18, refuted on the line `a,,b`: it is not of the form `key,hash` with a single comma, yet
the reader makes the item (a, b) of it, because empty fields are dropped before the fields are
counted. -/
theorem readLine_malformed_counterexample :
    readLine (ascii "a,,b") = some (item "a" "b") ∧ ¬ WellFormed (ascii "a,,b") := by
  refine ⟨by decide, ?_⟩
  rintro ⟨key, hash, heq, _, _, hk, hh⟩
  have h1 : List.count comma (ascii "a,,b") = 2 := by decide
  rw [heq, List.count_append, List.count_cons_self, List.count_eq_zero_of_not_mem hk,
    List.count_eq_zero_of_not_mem hh] at h1
  omega

/-- C18, amended. A line yields a CompareItem exactly when it consists of a non-empty key and a
non-empty hash, neither containing a comma, separated by one or more commas and possibly
preceded and followed by further commas; Key is then that key and Hash that hash. Every other
line yields no item, and the items are sent in the order of the lines of the file. -/
theorem readLine_item_iff :
    (∀ (line : Bytes) (it : CompareItem),
      readLine line = some it ↔
        it.Key ≠ [] ∧ comma ∉ it.Key ∧ it.Hash ≠ [] ∧ comma ∉ it.Hash ∧
          ∃ i j l : Nat, line = List.replicate i comma ++ it.Key ++
            List.replicate (j + 1) comma ++ it.Hash ++ List.replicate l comma) ∧
    (∀ (line : Bytes) (rest : List Bytes),
      readSorted (line :: rest) = (readLine line).toList ++ readSorted rest) ∧
    (∀ file1 file2 : List Bytes,
      readSorted (file1 ++ file2) = readSorted file1 ++ readSorted file2) := by
  refine ⟨?_, ?_, ?_⟩
  · intro line it
    rw [readLine_eq_some]
    constructor
    · intro h
      exact fieldsAux_eq_two line it.Key it.Hash h
    · rintro ⟨h1, h2, h3, h4, i, j, l, h5⟩
      rw [h5]
      exact fieldsAux_of_shape it.Key it.Hash i j l h1 h3 h2 h4
  · intro line rest
    cases h : readLine line <;> simp [readSorted, List.filterMap_cons, h]
  · intro file1 file2
    simp [readSorted]

/-- What the timeout branch decides: the report is written as soon as the two channels of
partition 0 are empty, whatever the other partitions hold. -/
theorem timeoutCheck_result_iff (partitionSize : Nat) (lenLeft lenRight : Nat → Nat) :
    timeoutCheck partitionSize lenLeft lenRight = .result ↔
      0 < partitionSize ∧ lenLeft 0 = 0 ∧ lenRight 0 = 0 := by
  unfold timeoutCheck timeoutLoop
  by_cases h : 0 < partitionSize
  · by_cases h2 : lenLeft 0 > 0 ∨ lenRight 0 > 0
    · simp only [h, h2, if_true, reduceCtorEq, true_and, false_iff]
      omega
    · simp only [h, h2, if_true, if_false, true_and, true_iff]
      omega
  · simp [h]

/-- C19, failing input: two partitions, the channels of partition 0 empty and the sorted source
channel of partition 1 holding one item. At the timeout the report task jumps to `RESULT` and
writes the report, although a channel still holds an item: the `goto RESULT` stands inside the
loop over the partitions, so only partition 0 is looked at. -/
theorem report_wait_checks_first_partition_example :
    timeoutCheck 2 (fun p => if p = 1 then 1 else 0) (fun _ => 0) = .result ∧
    (fun p => if p = 1 then 1 else 0 : Nat → Nat) 1 > 0 := by
  decide

/-! ### Soundness of the merge -/

/-- A byte string compares equal to itself. -/
theorem Compare_self (a : Bytes) : Compare a a = 0 := by
  induction a with
  | nil => rfl
  | cons x xs ih => simp [Compare, ih]

/-- Byte strings that compare equal are equal. -/
theorem Compare_eq_zero (a : Bytes) : ∀ b : Bytes, Compare a b = 0 → a = b := by
  induction a with
  | nil => intro b h; cases b <;> simp [Compare] at h ⊢
  | cons x xs ih =>
    intro b h
    cases b with
    | nil => simp [Compare] at h
    | cons y ys =>
      simp only [Compare] at h
      by_cases hxy : x < y
      · simp [hxy] at h
      · by_cases hyx : y < x
        · simp [hxy, hyx] at h
        · simp only [hxy, hyx, if_false] at h
          have : x = y := by omega
          rw [this, ih ys h]

/-- Strictly smaller then smaller or equal is strictly smaller. -/
theorem Compare_lt_of_lt_of_le (a b c : Bytes) (h1 : Compare a b < 0) (h2 : Compare b c ≤ 0) :
    Compare a c < 0 := by
  have h3 : Compare a c ≤ 0 := Compare_trans a b c (by omega) h2
  by_contra h4
  have h5 : Compare a c = 0 := by omega
  have h6 := Compare_eq_zero a c h5
  subst h6
  have h7 := Compare_swap a b
  omega

/-- The strict order of `Compare` is transitive. -/
theorem Compare_lt_trans (a b c : Bytes) (h1 : Compare a b < 0) (h2 : Compare b c < 0) :
    Compare a c < 0 :=
  Compare_lt_of_lt_of_le a b c h1 (by omega)

/-- Strictly smaller keys are different keys. -/
theorem ne_of_Compare_lt (a b : Bytes) (h : Compare a b < 0) : a ≠ b := by
  intro hab
  subst hab
  rw [Compare_self] at h
  omega

/-- In a strictly increasing stream the head key is below or equal to every key. -/
theorem head_le_of_increasing (a x : CompareItem) (l : List CompareItem)
    (h : StrictlyIncreasing (a :: l)) (hx : x ∈ a :: l) : Compare a.Key x.Key ≤ 0 := by
  rcases List.mem_cons.mp hx with h1 | h1
  · rw [h1, Compare_self]
  · have := (List.pairwise_cons.mp h).1 x h1
    simp only [CompareItem.CompareKey] at this
    omega

/-- The four cases of a pass through `COMPARE`, with what follows the pass. -/
theorem compareLoop_cases (a b : CompareItem) (left right : List CompareItem) :
    (a.CompareKey b < 0 ∧ ∃ rest : List Pass,
      compareLoop a b left right =
        ⟨a, b, some ⟨"OnlyInSource", a.Key, some a, none⟩⟩ :: rest ∧
      ((left = [] ∧ rest = []) ∨
        ∃ a1 left1, left = a1 :: left1 ∧ rest = compareLoop a1 b left1 right)) ∨
    (a.CompareKey b > 0 ∧ ∃ rest : List Pass,
      compareLoop a b left right =
        ⟨a, b, some ⟨"OnlyInTarget", b.Key, none, some b⟩⟩ :: rest ∧
      ((right = [] ∧ rest = []) ∨
        ∃ b1 right1, right = b1 :: right1 ∧ rest = compareLoop a b1 left right1)) ∨
    (a.CompareKey b = 0 ∧ a.CompareHash b ≠ 0 ∧
      compareLoop a b left right =
        ⟨a, b, some ⟨"DiffBoth", b.Key, some a, some b⟩⟩ :: processMsg left right) ∨
    (a.CompareKey b = 0 ∧ a.CompareHash b = 0 ∧
      compareLoop a b left right = ⟨a, b, none⟩ :: processMsg left right) := by
  rcases Int.lt_trichotomy (a.CompareKey b) 0 with h | h | h
  · left
    have h2 : ¬ a.CompareKey b > 0 := by omega
    refine ⟨h, ?_⟩
    rw [compareLoop_source a b left right (by simp [compareStep, h, h2])]
    cases left with
    | nil => exact ⟨[], by simp [compareStep, h, h2], Or.inl ⟨rfl, rfl⟩⟩
    | cons a1 left1 =>
      exact ⟨compareLoop a1 b left1 right, by simp [compareStep, h, h2],
        Or.inr ⟨a1, left1, rfl, rfl⟩⟩
  · right; right
    by_cases hh : a.CompareHash b = 0
    · right
      refine ⟨h, hh, ?_⟩
      rw [compareLoop_both a b left right (by simp [compareStep, h, hh])]
      simp [compareStep, h, hh]
    · left
      refine ⟨h, hh, ?_⟩
      rw [compareLoop_both a b left right (by simp [compareStep, h, hh])]
      simp [compareStep, h, hh]
  · right; left
    refine ⟨h, ?_⟩
    rw [compareLoop_target a b left right (by simp [compareStep, h])]
    cases right with
    | nil => exact ⟨[], by simp [compareStep, h], Or.inl ⟨rfl, rfl⟩⟩
    | cons b1 right1 =>
      exact ⟨compareLoop a b1 left right1, by simp [compareStep, h],
        Or.inr ⟨b1, right1, rfl, rfl⟩⟩

/-- A record that is right about the streams after the source head has been passed is right
about the streams with that head, the head being below the target head. -/
theorem SoundRecord.source_drop (a b : CompareItem) (l r : List CompareItem) (d : DiffResult)
    (hr : StrictlyIncreasing (b :: r)) (hab : a.CompareKey b < 0)
    (h : SoundRecord l (b :: r) d) : SoundRecord (a :: l) (b :: r) d := by
  rcases h with ⟨x, hx, hd, hn⟩ | ⟨y, hy, hd, hn⟩ | ⟨x, hx, y, hy, hd, hk⟩
  · exact Or.inl ⟨x, List.mem_cons_of_mem a hx, hd, hn⟩
  · refine Or.inr (Or.inl ⟨y, hy, hd, ?_⟩)
    intro x hx
    rcases List.mem_cons.mp hx with h1 | h1
    · rw [h1]
      exact ne_of_Compare_lt _ _
        (Compare_lt_of_lt_of_le a.Key b.Key y.Key hab (head_le_of_increasing b y r hr hy))
    · exact hn x h1
  · exact Or.inr (Or.inr ⟨x, List.mem_cons_of_mem a hx, y, hy, hd, hk⟩)

/-- The same after the target head has been passed, the head being below the source head. -/
theorem SoundRecord.target_drop (a b : CompareItem) (l r : List CompareItem) (d : DiffResult)
    (hl : StrictlyIncreasing (a :: l)) (hab : a.CompareKey b > 0)
    (h : SoundRecord (a :: l) r d) : SoundRecord (a :: l) (b :: r) d := by
  have hba : Compare b.Key a.Key < 0 := by
    have := Compare_swap b.Key a.Key
    simp only [CompareItem.CompareKey] at hab
    omega
  rcases h with ⟨x, hx, hd, hn⟩ | ⟨y, hy, hd, hn⟩ | ⟨x, hx, y, hy, hd, hk⟩
  · refine Or.inl ⟨x, hx, hd, ?_⟩
    intro y hy
    rcases List.mem_cons.mp hy with h1 | h1
    · rw [h1]
      exact ne_of_Compare_lt _ _
        (Compare_lt_of_lt_of_le b.Key a.Key x.Key hba (head_le_of_increasing a x l hl hx))
    · exact hn y h1
  · exact Or.inr (Or.inl ⟨y, List.mem_cons_of_mem b hy, hd, hn⟩)
  · exact Or.inr (Or.inr ⟨x, hx, y, List.mem_cons_of_mem b hy, hd, hk⟩)

/-- The same after both heads, with equal keys, have been passed. -/
theorem SoundRecord.both_drop (a b : CompareItem) (l r : List CompareItem) (d : DiffResult)
    (hl : StrictlyIncreasing (a :: l)) (hr : StrictlyIncreasing (b :: r))
    (hab : a.CompareKey b = 0) (h : SoundRecord l r d) : SoundRecord (a :: l) (b :: r) d := by
  have hkey : a.Key = b.Key := Compare_eq_zero a.Key b.Key hab
  rcases h with ⟨x, hx, hd, hn⟩ | ⟨y, hy, hd, hn⟩ | ⟨x, hx, y, hy, hd, hk⟩
  · refine Or.inl ⟨x, List.mem_cons_of_mem a hx, hd, ?_⟩
    intro y hy
    rcases List.mem_cons.mp hy with h1 | h1
    · rw [h1, ← hkey]
      exact ne_of_Compare_lt _ _ ((List.pairwise_cons.mp hl).1 x hx)
    · exact hn y h1
  · refine Or.inr (Or.inl ⟨y, List.mem_cons_of_mem b hy, hd, ?_⟩)
    intro x hx
    rcases List.mem_cons.mp hx with h1 | h1
    · rw [h1, hkey]
      exact ne_of_Compare_lt _ _ ((List.pairwise_cons.mp hr).1 y hy)
    · exact hn x h1
  · exact Or.inr (Or.inr ⟨x, List.mem_cons_of_mem a hx, y, List.mem_cons_of_mem b hy, hd, hk⟩)

/-- The key of a record that is right about two streams is the key of one of their items. -/
theorem SoundRecord.key_mem (l r : List CompareItem) (d : DiffResult) (h : SoundRecord l r d) :
    ∃ x, (x ∈ l ∨ x ∈ r) ∧ d.Key = x.Key := by
  rcases h with ⟨x, hx, hd, _⟩ | ⟨y, hy, hd, _⟩ | ⟨x, _, y, hy, hd, _⟩
  · exact ⟨x, Or.inl hx, by rw [hd]⟩
  · exact ⟨y, Or.inr hy, by rw [hd]⟩
  · exact ⟨y, Or.inr hy, by rw [hd]⟩

/-- A key below every key of two streams is below the key of every record that is right
about them. -/
theorem SoundRecord.key_above (k : Bytes) (l r : List CompareItem) (d : DiffResult)
    (hl : ∀ x ∈ l, Compare k x.Key < 0) (hr : ∀ y ∈ r, Compare k y.Key < 0)
    (h : SoundRecord l r d) : Compare k d.Key < 0 := by
  obtain ⟨x, hx, hd⟩ := SoundRecord.key_mem l r d h
  rw [hd]
  rcases hx with hx | hx
  · exact hl x hx
  · exact hr x hx

/-- The loop from `COMPARE` on strictly increasing streams: every record it emits is right
about the streams that start with the two heads, and the keys of the records are strictly
increasing. -/
theorem compareLoop_sound (n : Nat) :
    ∀ (a b : CompareItem) (l r : List CompareItem), l.length + r.length = n →
      StrictlyIncreasing (a :: l) → StrictlyIncreasing (b :: r) →
      (∀ d ∈ (compareLoop a b l r).filterMap (fun p => p.emitted),
        SoundRecord (a :: l) (b :: r) d) ∧
      ((compareLoop a b l r).filterMap (fun p => p.emitted)).Pairwise
        (fun d1 d2 => Compare d1.Key d2.Key < 0) := by
  induction n using Nat.strong_induction_on with
  | _ n ih =>
    intro a b l r hn hl hr
    have hla : ∀ x ∈ l, Compare a.Key x.Key < 0 := (List.pairwise_cons.mp hl).1
    have hrb : ∀ y ∈ r, Compare b.Key y.Key < 0 := (List.pairwise_cons.mp hr).1
    have hl1 : StrictlyIncreasing l := (List.pairwise_cons.mp hl).2
    have hr1 : StrictlyIncreasing r := (List.pairwise_cons.mp hr).2
    -- the run from `MOVEALL` on the tails
    have hpm : (∀ d ∈ (processMsg l r).filterMap (fun p => p.emitted), SoundRecord l r d) ∧
        ((processMsg l r).filterMap (fun p => p.emitted)).Pairwise
          (fun d1 d2 => Compare d1.Key d2.Key < 0) := by
      cases l with
      | nil => simp [processMsg, moveAll]
      | cons a1 l1 =>
        cases r with
        | nil => simp [processMsg, moveAll]
        | cons b1 r1 =>
          simp only [processMsg, moveAll]
          exact ih (l1.length + r1.length) (by simp at hn; omega) a1 b1 l1 r1 rfl hl1 hr1
    rcases compareLoop_cases a b l r with ⟨hab, rest, heq, hcase⟩ | ⟨hab, rest, heq, hcase⟩ |
      ⟨hab, hh, heq⟩ | ⟨hab, hh, heq⟩
    · -- only in source
      have hfirst : SoundRecord (a :: l) (b :: r) ⟨"OnlyInSource", a.Key, some a, none⟩ := by
        refine Or.inl ⟨a, List.mem_cons_self a l, rfl, ?_⟩
        intro y hy
        exact (ne_of_Compare_lt _ _
          (Compare_lt_of_lt_of_le a.Key b.Key y.Key hab (head_le_of_increasing b y r hr hy))).symm
      have hrest : (∀ d ∈ rest.filterMap (fun p => p.emitted), SoundRecord l (b :: r) d) ∧
          (rest.filterMap (fun p => p.emitted)).Pairwise
            (fun d1 d2 => Compare d1.Key d2.Key < 0) := by
        rcases hcase with ⟨_, h0⟩ | ⟨a1, l1, h0, h1⟩
        · simp [h0]
        · subst h0 h1
          exact ih (l1.length + r.length) (by simp at hn; omega) a1 b l1 r rfl hl1 hr
      rw [heq]
      simp only [List.filterMap_cons, List.mem_cons, List.pairwise_cons]
      refine ⟨?_, ?_, hrest.2⟩
      · rintro d (hd | hd)
        · rw [hd]; exact hfirst
        · exact SoundRecord.source_drop a b l r d hr hab (hrest.1 d hd)
      · intro d hd
        refine SoundRecord.key_above a.Key l (b :: r) d hla ?_ (hrest.1 d hd)
        intro y hy
        exact Compare_lt_of_lt_of_le a.Key b.Key y.Key hab (head_le_of_increasing b y r hr hy)
    · -- only in target
      have hba : Compare b.Key a.Key < 0 := by
        have := Compare_swap b.Key a.Key
        simp only [CompareItem.CompareKey] at hab
        omega
      have hfirst : SoundRecord (a :: l) (b :: r) ⟨"OnlyInTarget", b.Key, none, some b⟩ := by
        refine Or.inr (Or.inl ⟨b, List.mem_cons_self b r, rfl, ?_⟩)
        intro x hx
        exact (ne_of_Compare_lt _ _
          (Compare_lt_of_lt_of_le b.Key a.Key x.Key hba (head_le_of_increasing a x l hl hx))).symm
      have hrest : (∀ d ∈ rest.filterMap (fun p => p.emitted), SoundRecord (a :: l) r d) ∧
          (rest.filterMap (fun p => p.emitted)).Pairwise
            (fun d1 d2 => Compare d1.Key d2.Key < 0) := by
        rcases hcase with ⟨_, h0⟩ | ⟨b1, r1, h0, h1⟩
        · simp [h0]
        · subst h0 h1
          exact ih (l.length + r1.length) (by simp at hn; omega) a b1 l r1 rfl hl hr1
      rw [heq]
      simp only [List.filterMap_cons, List.mem_cons, List.pairwise_cons]
      refine ⟨?_, ?_, hrest.2⟩
      · rintro d (hd | hd)
        · rw [hd]; exact hfirst
        · exact SoundRecord.target_drop a b l r d hl hab (hrest.1 d hd)
      · intro d hd
        refine SoundRecord.key_above b.Key (a :: l) r d ?_ hrb (hrest.1 d hd)
        intro x hx
        exact Compare_lt_of_lt_of_le b.Key a.Key x.Key hba (head_le_of_increasing a x l hl hx)
    · -- same key, different hashes
      have hkey : a.Key = b.Key := Compare_eq_zero a.Key b.Key hab
      have hfirst : SoundRecord (a :: l) (b :: r) ⟨"DiffBoth", b.Key, some a, some b⟩ := by
        refine Or.inr (Or.inr ⟨a, List.mem_cons_self a l, b, List.mem_cons_self b r, rfl,
          hkey, ?_⟩)
        intro he
        apply hh
        simp only [CompareItem.CompareHash, he, Compare_self]
      rw [heq]
      simp only [List.filterMap_cons, List.mem_cons, List.pairwise_cons]
      refine ⟨?_, ?_, hpm.2⟩
      · rintro d (hd | hd)
        · rw [hd]; exact hfirst
        · exact SoundRecord.both_drop a b l r d hl hr hab (hpm.1 d hd)
      · intro d hd
        refine SoundRecord.key_above b.Key l r d ?_ hrb (hpm.1 d hd)
        intro x hx
        rw [← hkey]
        exact hla x hx
    · -- same key, same hash
      rw [heq]
      simp only [List.filterMap_cons]
      exact ⟨fun d hd => SoundRecord.both_drop a b l r d hl hr hab (hpm.1 d hd), hpm.2⟩

/-- On strictly increasing streams every record `processMsg` emits is right about the whole
streams, and the keys of the records are strictly increasing. -/
theorem emittedRecords_sound (left right : List CompareItem) (hl : StrictlyIncreasing left)
    (hr : StrictlyIncreasing right) :
    (∀ d ∈ emittedRecords left right, SoundRecord left right d) ∧
    (emittedRecords left right).Pairwise (fun d1 d2 => Compare d1.Key d2.Key < 0) := by
  cases left with
  | nil => simp [emittedRecords, processMsg, moveAll]
  | cons a l =>
    cases right with
    | nil => simp [emittedRecords, processMsg, moveAll]
    | cons b r =>
      simp only [emittedRecords, processMsg, moveAll]
      exact compareLoop_sound (l.length + r.length) a b l r rfl hl hr

/-- C20. Soundness of the merge: for source and target streams that are strictly increasing by
key, every record `processMsg` emits is an OnlyInSource, OnlyInTarget or DiffBoth record; the
key of an OnlyInSource record is the key of the source item it carries and of no target item;
the key of an OnlyInTarget record is the key of the target item it carries and of no source
item; the key of a DiffBoth record is the key of a source item and of a target item whose
hashes differ; and no key is reported more than once. -/
theorem processMsg_sound (left right : List CompareItem) (hl : StrictlyIncreasing left)
    (hr : StrictlyIncreasing right) :
    (∀ d ∈ emittedRecords left right,
      (d.DiffType = "OnlyInSource" ∨ d.DiffType = "OnlyInTarget" ∨ d.DiffType = "DiffBoth") ∧
      (d.DiffType = "OnlyInSource" →
        (∃ a ∈ left, a.Key = d.Key ∧ d.Source = some a) ∧ ∀ b ∈ right, b.Key ≠ d.Key) ∧
      (d.DiffType = "OnlyInTarget" →
        (∃ b ∈ right, b.Key = d.Key ∧ d.Target = some b) ∧ ∀ a ∈ left, a.Key ≠ d.Key) ∧
      (d.DiffType = "DiffBoth" →
        ∃ a ∈ left, ∃ b ∈ right, a.Key = d.Key ∧ b.Key = d.Key ∧ a.Hash ≠ b.Hash ∧
          d.Source = some a ∧ d.Target = some b)) ∧
    ((emittedRecords left right).map (fun d => d.Key)).Nodup := by
  obtain ⟨hs, hp⟩ := emittedRecords_sound left right hl hr
  refine ⟨?_, ?_⟩
  · intro d hd
    rcases hs d hd with ⟨x, hx, he, hn⟩ | ⟨y, hy, he, hn⟩ | ⟨x, hx, y, hy, he, hk, hh⟩
    · subst he
      refine ⟨Or.inl rfl, fun _ => ⟨⟨x, hx, rfl, rfl⟩, hn⟩, fun h => ?_, fun h => ?_⟩
      · simp at h
      · simp at h
    · subst he
      refine ⟨Or.inr (Or.inl rfl), fun h => ?_, fun _ => ⟨⟨y, hy, rfl, rfl⟩, hn⟩, fun h => ?_⟩
      · simp at h
      · simp at h
    · subst he
      refine ⟨Or.inr (Or.inr rfl), fun h => ?_, fun h => ?_,
        fun _ => ⟨x, hx, y, hy, hk, rfl, hh, rfl, rfl⟩⟩
      · simp at h
      · simp at h
  · rw [List.Nodup, List.pairwise_map]
    exact hp.imp (fun h => ne_of_Compare_lt _ _ h)

/-- C20, on the scenario streams, which are strictly increasing by key. -/
theorem processMsg_sound_witness :
    ((emittedRecords scenarioSource scenarioTarget).map (fun d => d.Key)).Nodup ∧
    ∀ d ∈ emittedRecords scenarioSource scenarioTarget,
      d.DiffType = "OnlyInSource" →
        (∃ a ∈ scenarioSource, a.Key = d.Key ∧ d.Source = some a) ∧
          ∀ b ∈ scenarioTarget, b.Key ≠ d.Key :=
  have h := processMsg_sound scenarioSource scenarioTarget
    (by unfold StrictlyIncreasing; decide) (by unfold StrictlyIncreasing; decide)
  ⟨h.2, fun d hd => (h.1 d hd).2.1⟩

end IndexDiff

/-! ## Theorems: the disk-queue consumer -/

namespace QueueConsumer

/-- C10, refuted at status 204 on a document endpoint: `processMessage` reports failure and the
worker pushes the popped payload to the failure queue. -/
theorem processMessage_2xx_counterexample :
    (docExchange 204).decodeErr = none ∧ (docExchange 204).doErr = none ∧
    (200 ≤ (docExchange 204).statusCode ∧ (docExchange 204).statusCode ≤ 299) ∧
    ContainStr (docExchange 204).requestURI "_bulk" = false ∧
    (processMessage sampleConfig (docExchange 204) samplePop).ok = false ∧
    pushesTo sampleConfig.FailureQueue
      (handlePop sampleConfig (fun _ => none) (docExchange 204) samplePop).pushes =
      [⟨"bulk-failure", samplePop⟩] := by
  decide

/-- C10, amended. For every popped request that is decoded and executed without a network
error, whose response status is 200 or 201 and whose request URI does not contain `_bulk`,
`processMessage` reports success with that status and no error, and the worker pushes nothing:
neither to the failure queue nor to the invalid queue. -/
theorem processMessage_ok_non_bulk (cfg : Config) (pushErr : String → Option String)
    (ex : Exchange) (pop : Bytes) (hdec : ex.decodeErr = none) (hdo : ex.doErr = none)
    (hstatus : ex.statusCode = 200 ∨ ex.statusCode = 201)
    (huri : ContainStr ex.requestURI "_bulk" = false) :
    processMessage cfg ex pop = ⟨true, ex.statusCode, none, []⟩ ∧
    (handlePop cfg pushErr ex pop).pushes = [] ∧
    (handlePop cfg pushErr ex pop).panic = none ∧
    pushesTo cfg.FailureQueue (handlePop cfg pushErr ex pop).pushes = [] ∧
    pushesTo cfg.InvalidQueue (handlePop cfg pushErr ex pop).pushes = [] := by
  have hst : ex.statusCode = 200 ∨ ex.statusCode = 201 ∨ ex.statusCode = 404 := by
    rcases hstatus with h | h
    · exact Or.inl h
    · exact Or.inr (Or.inl h)
  have hpm : processMessage cfg ex pop = ⟨true, ex.statusCode, none, []⟩ := by
    simp [processMessage, hdec, hdo, hst, huri]
  have hh : handlePop cfg pushErr ex pop = ⟨[], none⟩ := by
    simp only [handlePop, hpm]
    split <;> simp
  refine ⟨hpm, ?_, ?_, ?_, ?_⟩ <;> simp [hh, pushesTo]

/-- C10 amended, at status 201 on a document endpoint. -/
theorem processMessage_ok_non_bulk_witness :
    processMessage sampleConfig (docExchange 201) samplePop = ⟨true, 201, none, []⟩ ∧
    (handlePop sampleConfig (fun _ => none) (docExchange 201) samplePop).pushes = [] :=
  ⟨(processMessage_ok_non_bulk sampleConfig (fun _ => none) (docExchange 201) samplePop rfl rfl
      (Or.inr rfl) (by decide)).1,
    (processMessage_ok_non_bulk sampleConfig (fun _ => none) (docExchange 201) samplePop rfl rfl
      (Or.inr rfl) (by decide)).2.1⟩

/-- C11. Dead letter: for a popped (non-empty) message that is decoded and executed without a
network error and answered with a status in [400, 499] other than 429 and 404, the worker makes
exactly one push, to the invalid queue, with the popped payload itself; so the invalid queue
receives that one message and, being another queue, the failure queue receives nothing. -/
theorem worker_4xx_to_invalid (cfg : Config) (pushErr : String → Option String)
    (ex : Exchange) (pop : Bytes) (hpop : pop.length > 0) (hdec : ex.decodeErr = none)
    (hdo : ex.doErr = none) (hlo : 400 ≤ ex.statusCode) (hhi : ex.statusCode ≤ 499)
    (h429 : ex.statusCode ≠ 429) (h404 : ex.statusCode ≠ 404) :
    (handlePop cfg pushErr ex pop).pushes = [⟨cfg.InvalidQueue, pop⟩] ∧
    pushesTo cfg.InvalidQueue (handlePop cfg pushErr ex pop).pushes =
      [⟨cfg.InvalidQueue, pop⟩] ∧
    (cfg.FailureQueue ≠ cfg.InvalidQueue →
      pushesTo cfg.FailureQueue (handlePop cfg pushErr ex pop).pushes = []) := by
  have hst : ¬ (ex.statusCode = 200 ∨ ex.statusCode = 201 ∨ ex.statusCode = 404) := by omega
  have hpm : processMessage cfg ex pop = ⟨false, ex.statusCode, some "invalid status code", []⟩ := by
    simp [processMessage, hdec, hdo, hst]
  have hcond : ex.statusCode ≠ 429 ∧ ex.statusCode ≥ 400 ∧ ex.statusCode < 500 :=
    ⟨h429, hlo, by omega⟩
  have hh : (handlePop cfg pushErr ex pop).pushes = [⟨cfg.InvalidQueue, pop⟩] := by
    simp [handlePop, hpop, hpm, hcond]
  refine ⟨hh, ?_, ?_⟩
  · simp [hh, pushesTo]
  · intro hne
    simp [hh, pushesTo, Ne.symm hne]

/-- C11, at status 400: one push to the invalid queue with the popped bytes, none to the
failure queue. -/
theorem worker_4xx_to_invalid_witness :
    (handlePop sampleConfig (fun _ => none) (docExchange 400) samplePop).pushes =
      [⟨"bulk-invalid", samplePop⟩] ∧
    pushesTo "bulk-invalid"
      (handlePop sampleConfig (fun _ => none) (docExchange 400) samplePop).pushes =
      [⟨"bulk-invalid", samplePop⟩] ∧
    pushesTo "bulk-failure"
      (handlePop sampleConfig (fun _ => none) (docExchange 400) samplePop).pushes = [] :=
  have h := worker_4xx_to_invalid sampleConfig (fun _ => none) (docExchange 400) samplePop
    (by decide) rfl rfl (by decide) (by decide) (by decide) (by decide)
  ⟨h.1, h.2.1, h.2.2 (by decide)⟩

/-- C12. Retry: for a popped (non-empty) message that is decoded and whose upstream response
has status 429 or a status of 500 or more, the worker makes exactly one push, to the failure
queue, with the popped payload itself; so the failure queue receives that one message and,
being another queue, the invalid queue receives nothing. -/
theorem worker_429_5xx_to_failure (cfg : Config) (pushErr : String → Option String)
    (ex : Exchange) (pop : Bytes) (hpop : pop.length > 0) (hdec : ex.decodeErr = none)
    (hstatus : ex.statusCode = 429 ∨ ex.statusCode ≥ 500) :
    (handlePop cfg pushErr ex pop).pushes = [⟨cfg.FailureQueue, pop⟩] ∧
    pushesTo cfg.FailureQueue (handlePop cfg pushErr ex pop).pushes =
      [⟨cfg.FailureQueue, pop⟩] ∧
    (cfg.InvalidQueue ≠ cfg.FailureQueue →
      pushesTo cfg.InvalidQueue (handlePop cfg pushErr ex pop).pushes = []) := by
  have hst : ¬ (ex.statusCode = 200 ∨ ex.statusCode = 201 ∨ ex.statusCode = 404) := by omega
  have hpm : (processMessage cfg ex pop).ok = false ∧
      (processMessage cfg ex pop).status = ex.statusCode ∧
      (processMessage cfg ex pop).pushes = [] := by
    cases hd : ex.doErr <;> simp [processMessage, hdec, hd, hst]
  have hcond : ¬ (ex.statusCode ≠ 429 ∧ ex.statusCode ≥ 400 ∧ ex.statusCode < 500) := by omega
  have hh : (handlePop cfg pushErr ex pop).pushes = [⟨cfg.FailureQueue, pop⟩] := by
    simp only [handlePop, hpop, if_true, hpm.1, hpm.2.1, hpm.2.2, Bool.not_false, hcond,
      if_false, List.nil_append]
  refine ⟨hh, ?_, ?_⟩
  · simp [hh, pushesTo]
  · intro hne
    simp [hh, pushesTo, Ne.symm hne]

/-- C12, at status 503: one push to the failure queue with the popped bytes, none to the
invalid queue. -/
theorem worker_429_5xx_to_failure_witness :
    (handlePop sampleConfig (fun _ => none) (docExchange 503) samplePop).pushes =
      [⟨"bulk-failure", samplePop⟩] ∧
    pushesTo "bulk-invalid"
      (handlePop sampleConfig (fun _ => none) (docExchange 503) samplePop).pushes = [] :=
  have h := worker_429_5xx_to_failure sampleConfig (fun _ => none) (docExchange 503) samplePop
    (by decide) rfl (Or.inr (by decide))
  ⟨h.1, h.2.2 (by decide)⟩

end QueueConsumer

/-! ## Theorems: the bulk response filter -/

namespace BulkResponse

/-- The calls of `Filter` on a POST `_bulk` request with a 200/201 response that contains item
errors, stats-only off, when the call returns: the bulk status, the any-error tags, the block
of the non-retryable items, then for retryable items the retry flow (if any) and the push
followed by the failure tags, then the block of the success items and the final mark. -/
theorem filter_anyError_effects (this : BulkResponseProcess) (rq : BulkExchange)
    (ctx : RequestCtx) (hm : rq.method = "POST")
    (hp : QueueConsumer.ContainStr rq.path "_bulk" = true)
    (hs : rq.statusCode = 200 ∨ rq.statusCode = 201) (hstats : this.config.StatsOnly = false)
    (herr : rq.containError = true) (hret : (this.Filter rq ctx).result.isReturned = true) :
    ∃ pre mid : List Effect,
      (pre = [] ∨ pre = [.set "bulk_response_status"]) ∧
      (mid = [] ∨ (∃ q b, mid = [.push .failure q b]) ∨
        (∃ e i inv q b, mid = [.addFlowProcess e, .runFlow i inv, .push .failure q b])) ∧
      (this.Filter rq ctx).effects =
        pre ++ tagEffect .anyError this.config.TagsOnAnyError ++
          invalidEffects this.config rq ++ mid ++
          (if rq.retryableItems.count > 0 then failureTagEffects this.config rq else []) ++
          successEffects this.config rq ++ finishedEffect this.config.ContinueOnAnyError := by
  have hpre : (if rq.hasBulkResults then [Effect.set "bulk_response_status"] else []) = [] ∨
      (if rq.hasBulkResults then [Effect.set "bulk_response_status"] else []) =
        [.set "bulk_response_status"] := by
    cases rq.hasBulkResults <;> simp
  simp only [BulkResponseProcess.Filter, hm, hp, hs, hstats, herr, anyErrorBranch] at hret ⊢
  simp only [ne_eq, not_true_eq_false, Bool.true_eq_false, or_self, if_false, if_true,
    Bool.false_eq_true] at hret ⊢
  by_cases hr : rq.retryableItems.count > 0
  · simp only [hr, if_true] at hret ⊢
    by_cases hq : this.config.FailureQueue = ""
    · refine ⟨_, [], hpre, Or.inl rfl, ?_⟩
      simp [hq, returnAfter]
    · simp only [hq, not_false_eq_true, if_true] at hret ⊢
      cases hflow : (if this.config.PartialFailureRetry = true then this.retryFlow else none) with
      | none =>
        refine ⟨_, [.push .failure this.config.FailureQueue
          (.overrideBody rq.retryableItems.SafetyEndWithNewline.bytes)], hpre,
          Or.inr (Or.inl ⟨_, _, rfl⟩), ?_⟩
        simp [returnAfter]
      | some flow =>
        simp only [hflow] at hret
        simp only []
        cases hrun : (flow.Process (applyAll ctx
            ((if rq.hasBulkResults = true then [Effect.set "bulk_response_status"] else []) ++
              tagEffect .anyError this.config.TagsOnAnyError ++ invalidEffects this.config rq ++
              [.addFlowProcess ("retry_flow:" ++ flow.ID)]))).result with
        | panicked msg c =>
          simp only [List.append_assoc] at hrun
          simp [hrun, Completion.isReturned] at hret
        | returned c =>
          simp only [List.append_assoc] at hrun
          refine ⟨_, [.addFlowProcess ("retry_flow:" ++ flow.ID), .runFlow flow.ID
              (flow.Process (applyAll ctx
                ((if rq.hasBulkResults = true then [Effect.set "bulk_response_status"]
                  else []) ++
                  tagEffect .anyError this.config.TagsOnAnyError ++
                  invalidEffects this.config rq ++
                  [.addFlowProcess ("retry_flow:" ++ flow.ID)]))).invoked,
            .push .failure this.config.FailureQueue
              (.overrideBody rq.retryableItems.SafetyEndWithNewline.bytes)], hpre,
            Or.inr (Or.inr ⟨_, _, _, _, _, rfl⟩), ?_⟩
          simp [hrun]
  · refine ⟨_, [], hpre, Or.inl rfl, ?_⟩
    simp [hr, returnAfter]

/-- The only way for `Filter` to panic is a panic of its retry flow: when the retry flow (if
there is one) returns on every context, `Filter` returns. -/
theorem filter_returns (this : BulkResponseProcess) (rq : BulkExchange) (ctx : RequestCtx)
    (hflow : ∀ flow, this.retryFlow = some flow →
      ∀ c, (flow.Process c).result.isReturned = true) :
    (this.Filter rq ctx).result.isReturned = true := by
  unfold BulkResponseProcess.Filter
  simp only []
  split
  · rfl
  · split
    · split
      · rfl
      · split
        · unfold anyErrorBranch
          simp only []
          split
          · split
            · split
              · rename_i flow hsome
                have hf : this.retryFlow = some flow := by
                  split at hsome
                  · exact hsome
                  · cases hsome
                have h := hflow flow hf
                split
                · rename_i hp
                  have h2 := h (applyAll ctx
                    ((if rq.hasBulkResults = true then [Effect.set "bulk_response_status"]
                        else []) ++
                      tagEffect TagOption.anyError this.config.TagsOnAnyError ++
                      invalidEffects this.config rq ++
                      [Effect.addFlowProcess ("retry_flow:" ++ flow.ID)]))
                  rw [hp] at h2
                  exact h2
                · rfl
              · rfl
            · rfl
          · rfl
        · rfl
    · rfl

/-- A call is made by the tag pattern exactly when the tag list is not empty. -/
theorem mem_tagEffect (e : Effect) (o : TagOption) (t : List String) :
    e ∈ tagEffect o t ↔ t ≠ [] ∧ e = .updateTags o t := by
  cases t <;> simp [tagEffect]

/-- The final mark is made exactly when the continue option is off. -/
theorem mem_finishedEffect (e : Effect) (c : Bool) :
    e ∈ finishedEffect c ↔ c = false ∧ e = .finished := by
  cases c <;> simp [finishedEffect]

/-- The tags applied by the block of the non-retryable items. -/
theorem updateTags_mem_invalidEffects (cfg : Config) (rq : BulkExchange) (o : TagOption)
    (t : List String) :
    Effect.updateTags o t ∈ invalidEffects cfg rq ↔
      rq.nonRetryableItems.count > 0 ∧ t ≠ [] ∧
        ((o = .partialInvalid ∧ t = cfg.TagsOnPartialInvalid) ∨
          (o = .allInvalid ∧ t = cfg.TagsOnAllInvalid ∧ rq.successItems.count = 0 ∧
            rq.retryableItems.count = 0)) := by
  unfold invalidEffects
  by_cases h : rq.nonRetryableItems.count > 0
  · by_cases hq : cfg.InvalidQueue = "" <;>
      by_cases hc : rq.successItems.count = 0 ∧ rq.retryableItems.count = 0 <;>
      simp only [h, hq, hc, if_true, if_false, List.mem_append, mem_tagEffect, ne_eq,
        not_true_eq_false, not_false_eq_true, List.mem_singleton, List.not_mem_nil,
        reduceCtorEq, Effect.updateTags.injEq, List.nil_append, or_false, false_or,
        true_and, and_true, and_false] <;>
      constructor <;> intro hx <;> aesop
  · simp [h]

/-- The tags applied after the push of the retryable items. -/
theorem updateTags_mem_failureTagEffects (cfg : Config) (rq : BulkExchange) (o : TagOption)
    (t : List String) :
    Effect.updateTags o t ∈ failureTagEffects cfg rq ↔
      t ≠ [] ∧
        ((o = .partialFailure ∧ t = cfg.TagsOnPartialFailure) ∨
          (o = .allFailure ∧ t = cfg.TagsOnAllFailure ∧ rq.successItems.count = 0 ∧
            rq.nonRetryableItems.count = 0)) := by
  unfold failureTagEffects
  by_cases hc : rq.successItems.count = 0 ∧ rq.nonRetryableItems.count = 0
  · rw [if_pos hc]
    simp only [List.mem_append, mem_tagEffect, ne_eq, Effect.updateTags.injEq]
    constructor <;> intro hx <;> aesop
  · rw [if_neg hc]
    simp only [List.mem_append, mem_tagEffect, ne_eq, Effect.updateTags.injEq,
      List.not_mem_nil, or_false]
    constructor <;> intro hx <;> aesop

/-- The tags applied by the block of the success items. -/
theorem updateTags_mem_successEffects (cfg : Config) (rq : BulkExchange) (o : TagOption)
    (t : List String) :
    Effect.updateTags o t ∈ successEffects cfg rq ↔
      rq.successItems.count > 0 ∧ t ≠ [] ∧ o = .partialSuccess ∧
        t = cfg.TagsOnPartialSuccess := by
  unfold successEffects
  by_cases h : rq.successItems.count > 0
  · by_cases hq : cfg.SuccessQueue = "" <;>
      simp only [h, hq, if_true, if_false, List.mem_append, mem_tagEffect, ne_eq,
        not_true_eq_false, not_false_eq_true, List.mem_singleton, List.not_mem_nil,
        reduceCtorEq, Effect.updateTags.injEq, false_or, true_and] <;>
      constructor <;> intro hx <;> aesop
  · simp [h]

/-- The tags applied by `Filter` on a POST `_bulk` request with a 200/201 response that
contains item errors, stats-only off, when the call returns. -/
theorem updateTags_mem_filter (this : BulkResponseProcess) (rq : BulkExchange)
    (ctx : RequestCtx) (hm : rq.method = "POST")
    (hp : QueueConsumer.ContainStr rq.path "_bulk" = true)
    (hs : rq.statusCode = 200 ∨ rq.statusCode = 201) (hstats : this.config.StatsOnly = false)
    (herr : rq.containError = true) (hret : (this.Filter rq ctx).result.isReturned = true)
    (o : TagOption) (t : List String) :
    Effect.updateTags o t ∈ (this.Filter rq ctx).effects ↔
      (t ≠ [] ∧ o = .anyError ∧ t = this.config.TagsOnAnyError) ∨
      Effect.updateTags o t ∈ invalidEffects this.config rq ∨
      (rq.retryableItems.count > 0 ∧ Effect.updateTags o t ∈ failureTagEffects this.config rq) ∨
      Effect.updateTags o t ∈ successEffects this.config rq := by
  obtain ⟨pre, mid, hpre, hmid, heff⟩ :=
    filter_anyError_effects this rq ctx hm hp hs hstats herr hret
  have h1 : Effect.updateTags o t ∉ pre := by
    rcases hpre with h | h <;> simp [h]
  have h2 : Effect.updateTags o t ∉ mid := by
    rcases hmid with h | ⟨q, b, h⟩ | ⟨e, i, inv, q, b, h⟩ <;> simp [h]
  rw [heff]
  by_cases hr : rq.retryableItems.count > 0 <;>
    simp only [hr, if_true, if_false, List.mem_append, mem_tagEffect, mem_finishedEffect, h1, h2,
      reduceCtorEq, and_false, or_false, false_or, List.not_mem_nil, true_and, false_and,
      Effect.updateTags.injEq, ne_eq]
  all_goals constructor <;> intro hx <;> aesop

/-- The calls of `Filter` on a POST `_bulk` request with a 200/201 response that contains item
errors, stats-only off, when the call ends in a panic: the panic is that of the retry flow, and
the calls stop there, after the block of the non-retryable items and before the push of the
retryable items. -/
theorem filter_anyError_effects_panicked (this : BulkResponseProcess) (rq : BulkExchange)
    (ctx : RequestCtx) (hm : rq.method = "POST")
    (hp : QueueConsumer.ContainStr rq.path "_bulk" = true)
    (hs : rq.statusCode = 200 ∨ rq.statusCode = 201) (hstats : this.config.StatsOnly = false)
    (herr : rq.containError = true) (hpanic : (this.Filter rq ctx).result.isReturned = false) :
    ∃ (pre : List Effect) (e i : String) (inv : List Nat),
      (pre = [] ∨ pre = [.set "bulk_response_status"]) ∧
      (this.Filter rq ctx).effects =
        pre ++ tagEffect .anyError this.config.TagsOnAnyError ++
          invalidEffects this.config rq ++ [.addFlowProcess e, .runFlow i inv] := by
  have hpre : (if rq.hasBulkResults then [Effect.set "bulk_response_status"] else []) = [] ∨
      (if rq.hasBulkResults then [Effect.set "bulk_response_status"] else []) =
        [.set "bulk_response_status"] := by
    cases rq.hasBulkResults <;> simp
  simp only [BulkResponseProcess.Filter, hm, hp, hs, hstats, herr, anyErrorBranch] at hpanic ⊢
  simp only [ne_eq, not_true_eq_false, Bool.true_eq_false, or_self, if_false, if_true,
    Bool.false_eq_true] at hpanic ⊢
  by_cases hr : rq.retryableItems.count > 0
  · simp only [hr, if_true] at hpanic ⊢
    by_cases hq : this.config.FailureQueue = ""
    · simp [hq, returnAfter, Completion.isReturned] at hpanic
    · simp only [hq, not_false_eq_true, if_true] at hpanic ⊢
      cases hflow : (if this.config.PartialFailureRetry = true then this.retryFlow else none) with
      | none =>
        simp [hflow, returnAfter, Completion.isReturned] at hpanic
      | some flow =>
        simp only [hflow] at hpanic
        simp only []
        cases hrun : (flow.Process (applyAll ctx
            ((if rq.hasBulkResults = true then [Effect.set "bulk_response_status"] else []) ++
              tagEffect .anyError this.config.TagsOnAnyError ++ invalidEffects this.config rq ++
              [.addFlowProcess ("retry_flow:" ++ flow.ID)]))).result with
        | returned c =>
          simp only [List.append_assoc] at hrun
          simp [hrun, Completion.isReturned] at hpanic
        | panicked msg c =>
          simp only [List.append_assoc] at hrun
          refine ⟨_, "retry_flow:" ++ flow.ID, flow.ID,
            (flow.Process (applyAll ctx
              ((if rq.hasBulkResults = true then [Effect.set "bulk_response_status"]
                else []) ++
                tagEffect .anyError this.config.TagsOnAnyError ++
                invalidEffects this.config rq ++
                [.addFlowProcess ("retry_flow:" ++ flow.ID)]))).invoked, hpre, ?_⟩
          simp [hrun]
  · simp [hr, returnAfter, Completion.isReturned] at hpanic

/-- The tags applied by `Filter` in a call that ends in a panic of the retry flow: the
any-error tags and those of the block of the non-retryable items, no others. -/
theorem updateTags_mem_filter_panicked (this : BulkResponseProcess) (rq : BulkExchange)
    (ctx : RequestCtx) (hm : rq.method = "POST")
    (hp : QueueConsumer.ContainStr rq.path "_bulk" = true)
    (hs : rq.statusCode = 200 ∨ rq.statusCode = 201) (hstats : this.config.StatsOnly = false)
    (herr : rq.containError = true) (hpanic : (this.Filter rq ctx).result.isReturned = false)
    (o : TagOption) (t : List String) :
    Effect.updateTags o t ∈ (this.Filter rq ctx).effects ↔
      (t ≠ [] ∧ o = .anyError ∧ t = this.config.TagsOnAnyError) ∨
      Effect.updateTags o t ∈ invalidEffects this.config rq := by
  obtain ⟨pre, e, i, inv, hpre, heff⟩ :=
    filter_anyError_effects_panicked this rq ctx hm hp hs hstats herr hpanic
  have h1 : Effect.updateTags o t ∉ pre := by
    rcases hpre with h | h <;> simp [h]
  rw [heff]
  simp only [List.mem_append, mem_tagEffect, h1, false_or, List.mem_cons, reduceCtorEq,
    List.mem_singleton, List.not_mem_nil, or_false, Effect.updateTags.injEq, ne_eq]
  constructor <;> intro hx <;> aesop

/-- C13, refuted with a retry flow that panics: on a POST `_bulk` request with a 200 response
that contains item errors and leaves one retryable item, stats-only off and the
partial-failure and all-failure tag lists configured, `Filter` ends with the panic of the
retry flow right after calling it; the partial-failure and all-failure tags are not applied
although the retryable bucket is the sole non-empty one. -/
theorem filter_bucket_tags_panic_counterexample :
    (bulkExchange 200 true 0 0 1 false).method = "POST" ∧
    QueueConsumer.ContainStr (bulkExchange 200 true 0 0 1 false).path "_bulk" = true ∧
    sampleConfig.StatsOnly = false ∧ sampleConfig.TagsOnPartialFailure ≠ [] ∧
    sampleConfig.TagsOnAllFailure ≠ [] ∧
    (bulkExchange 200 true 0 0 1 false).retryableItems.count > 0 ∧
    (bulkExchange 200 true 0 0 1 false).successItems.count = 0 ∧
    (bulkExchange 200 true 0 0 1 false).nonRetryableItems.count = 0 ∧
    ((builtFilter registryRetryPanic sampleConfig).Filter
        (bulkExchange 200 true 0 0 1 false) ctx0).effects =
      [.set "bulk_response_status", .updateTags .anyError ["any_error"],
       .addFlowProcess "retry_flow:retry", .runFlow "retry" [0]] ∧
    Effect.updateTags .partialFailure sampleConfig.TagsOnPartialFailure ∉
      ((builtFilter registryRetryPanic sampleConfig).Filter
        (bulkExchange 200 true 0 0 1 false) ctx0).effects ∧
    Effect.updateTags .allFailure sampleConfig.TagsOnAllFailure ∉
      ((builtFilter registryRetryPanic sampleConfig).Filter
        (bulkExchange 200 true 0 0 1 false) ctx0).effects := by
  decide

/-- C13, amended. On a POST `_bulk` request with a 200/201 response that contains item errors,
stats-only off: the all-invalid tags are applied iff their list is not empty, the
non-retryable count is positive and the success and retryable counts are both 0, and the
partial-invalid tags iff their list is not empty and the non-retryable count is positive, in
every call; the all-failure tags are applied iff the call of `Filter` returns (its retry flow,
when it is run, does not panic), their list is not empty, the retryable count is positive and
the success and non-retryable counts are both 0; the partial-failure and partial-success tags
iff the call returns, their list is not empty and the count of their bucket is positive. -/
theorem filter_bucket_tags (this : BulkResponseProcess) (rq : BulkExchange)
    (ctx : RequestCtx) (hm : rq.method = "POST")
    (hp : QueueConsumer.ContainStr rq.path "_bulk" = true)
    (hs : rq.statusCode = 200 ∨ rq.statusCode = 201) (hstats : this.config.StatsOnly = false)
    (herr : rq.containError = true) :
    (Effect.updateTags .allInvalid this.config.TagsOnAllInvalid ∈ (this.Filter rq ctx).effects ↔
      this.config.TagsOnAllInvalid ≠ [] ∧ rq.nonRetryableItems.count > 0 ∧
        rq.successItems.count = 0 ∧ rq.retryableItems.count = 0) ∧
    (Effect.updateTags .partialInvalid this.config.TagsOnPartialInvalid ∈
        (this.Filter rq ctx).effects ↔
      this.config.TagsOnPartialInvalid ≠ [] ∧ rq.nonRetryableItems.count > 0) ∧
    (Effect.updateTags .allFailure this.config.TagsOnAllFailure ∈ (this.Filter rq ctx).effects ↔
      (this.Filter rq ctx).result.isReturned = true ∧
        this.config.TagsOnAllFailure ≠ [] ∧ rq.retryableItems.count > 0 ∧
        rq.successItems.count = 0 ∧ rq.nonRetryableItems.count = 0) ∧
    (Effect.updateTags .partialFailure this.config.TagsOnPartialFailure ∈
        (this.Filter rq ctx).effects ↔
      (this.Filter rq ctx).result.isReturned = true ∧
        this.config.TagsOnPartialFailure ≠ [] ∧ rq.retryableItems.count > 0) ∧
    (Effect.updateTags .partialSuccess this.config.TagsOnPartialSuccess ∈
        (this.Filter rq ctx).effects ↔
      (this.Filter rq ctx).result.isReturned = true ∧
        this.config.TagsOnPartialSuccess ≠ [] ∧ rq.successItems.count > 0) := by
  cases hret : (this.Filter rq ctx).result.isReturned with
  | true =>
    refine ⟨?_, ?_, ?_, ?_, ?_⟩ <;>
      rw [updateTags_mem_filter this rq ctx hm hp hs hstats herr hret,
        updateTags_mem_invalidEffects, updateTags_mem_failureTagEffects,
        updateTags_mem_successEffects] <;>
      simp only [reduceCtorEq, false_and, and_false, or_false, false_or, true_and, and_true,
        ne_eq] <;>
      constructor <;> intro hx <;> aesop
  | false =>
    refine ⟨?_, ?_, ?_, ?_, ?_⟩ <;>
      rw [updateTags_mem_filter_panicked this rq ctx hm hp hs hstats herr hret,
        updateTags_mem_invalidEffects] <;>
      simp only [reduceCtorEq, false_and, and_false, or_false, false_or, true_and, and_true,
        ne_eq, Bool.false_eq_true] <;>
      constructor <;> intro hx <;> aesop

/-- C13 amended, on a response with one invalid item and nothing else (all-invalid and
partial-invalid tags applied, no failure tags), on one with one invalid and one retryable item
whose retry flow returns (no all-invalid tag any more, partial-failure tags applied), and on
one whose retry flow panics (no partial-failure tags). -/
theorem filter_bucket_tags_witness :
    (Effect.updateTags .allInvalid ["all_invalid"] ∈
        ((builtFilter registryRetryFlow sampleConfig).Filter
          (bulkExchange 200 true 0 1 0 false) ctx0).effects ∧
      Effect.updateTags .partialInvalid ["partial_invalid"] ∈
        ((builtFilter registryRetryFlow sampleConfig).Filter
          (bulkExchange 200 true 0 1 0 false) ctx0).effects ∧
      Effect.updateTags .allFailure ["all_failure"] ∉
        ((builtFilter registryRetryFlow sampleConfig).Filter
          (bulkExchange 200 true 0 1 0 false) ctx0).effects) ∧
    (Effect.updateTags .allInvalid ["all_invalid"] ∉
        ((builtFilter registryRetryFlow sampleConfig).Filter
          (bulkExchange 200 true 0 1 1 false) ctx0).effects ∧
      Effect.updateTags .partialFailure ["partial_failure"] ∈
        ((builtFilter registryRetryFlow sampleConfig).Filter
          (bulkExchange 200 true 0 1 1 false) ctx0).effects) ∧
    (Effect.updateTags .partialInvalid ["partial_invalid"] ∈
        ((builtFilter registryRetryPanic sampleConfig).Filter
          (bulkExchange 200 true 0 1 1 false) ctx0).effects ∧
      Effect.updateTags .partialFailure ["partial_failure"] ∉
        ((builtFilter registryRetryPanic sampleConfig).Filter
          (bulkExchange 200 true 0 1 1 false) ctx0).effects) :=
  have h1 := filter_bucket_tags (builtFilter registryRetryFlow sampleConfig)
    (bulkExchange 200 true 0 1 0 false) ctx0 rfl (by decide) (Or.inl rfl) rfl rfl
  have h2 := filter_bucket_tags (builtFilter registryRetryFlow sampleConfig)
    (bulkExchange 200 true 0 1 1 false) ctx0 rfl (by decide) (Or.inl rfl) rfl rfl
  have h3 := filter_bucket_tags (builtFilter registryRetryPanic sampleConfig)
    (bulkExchange 200 true 0 1 1 false) ctx0 rfl (by decide) (Or.inl rfl) rfl rfl
  ⟨⟨h1.1.mpr (by decide), h1.2.1.mpr (by decide),
      fun h => absurd (h1.2.2.1.mp h) (by decide)⟩,
    ⟨fun h => absurd (h2.1.mp h) (by decide), h2.2.2.2.1.mpr (by decide)⟩,
    ⟨h3.2.1.mpr (by decide), fun h => absurd (h3.2.2.2.1.mp h) (by decide)⟩⟩

/-- The blocks of the any-error branch before the final mark do not mark the context
finished. -/
theorem finished_not_mem_blocks (cfg : Config) (rq : BulkExchange) (o : TagOption)
    (t : List String) :
    Effect.finished ∉ tagEffect o t ∧ Effect.finished ∉ invalidEffects cfg rq ∧
      Effect.finished ∉ failureTagEffects cfg rq ∧ Effect.finished ∉ successEffects cfg rq := by
  have ht : ∀ (o1 : TagOption) (t1 : List String), Effect.finished ∉ tagEffect o1 t1 := by
    intro o1 t1 h
    rw [mem_tagEffect] at h
    exact absurd h.2 (by simp)
  refine ⟨ht o t, ?_, ?_, ?_⟩
  · unfold invalidEffects
    intro h
    split at h
    · simp only [List.mem_append] at h
      rcases h with (h | h) | h
      · split at h <;> simp at h
      · exact ht _ _ h
      · split at h
        · exact ht _ _ h
        · simp at h
    · simp at h
  · unfold failureTagEffects
    intro h
    simp only [List.mem_append] at h
    rcases h with h | h
    · exact ht _ _ h
    · split at h
      · exact ht _ _ h
      · simp at h
  · unfold successEffects
    intro h
    split at h
    · simp only [List.mem_append] at h
      rcases h with h | h
      · split at h <;> simp at h
      · exact ht _ _ h
    · simp at h

/-- C14, refuted with stats-only on: for a POST `_bulk` request answered with status 500 the
filter takes the branch of the other statuses, which does not look at stats-only, and marks
the context finished because continue-on-all-error is off. -/
theorem filter_statsOnly_finished_counterexample :
    ({ sampleConfig with StatsOnly := true } : Config).StatsOnly = true ∧
    (bulkExchange 500 false 0 0 0 false).method = "POST" ∧
    QueueConsumer.ContainStr (bulkExchange 500 false 0 0 0 false).path "_bulk" = true ∧
    (BulkResponseProcess.Filter ⟨"uuid", { sampleConfig with StatsOnly := true }, none⟩
      (bulkExchange 500 false 0 0 0 false) ctx0).effects =
      [.updateTags .none2xx ["none_2xx"], .finished] ∧
    Effect.finished ∈
      (BulkResponseProcess.Filter ⟨"uuid", { sampleConfig with StatsOnly := true }, none⟩
        (bulkExchange 500 false 0 0 0 false) ctx0).effects := by
  decide

/-- C14, amended. In a call of `Filter` that returns (its retry flow, if run, does not panic),
the context is marked finished iff the request is a POST whose path contains `_bulk` and the
continue option of the branch taken is off: for a 200/201 response with stats-only off,
continue-on-any-error when the response contains item errors and continue-on-success when it
does not; for any other response status, continue-on-all-error, whether stats-only is on or
off. So the filter never marks the context finished for a request that is not POST or whose
path does not contain `_bulk`, nor for a 200/201 response with stats-only on. -/
theorem filter_marks_finished (this : BulkResponseProcess) (rq : BulkExchange)
    (ctx : RequestCtx) (hret : (this.Filter rq ctx).result.isReturned = true) :
    Effect.finished ∈ (this.Filter rq ctx).effects ↔
      rq.method = "POST" ∧ QueueConsumer.ContainStr rq.path "_bulk" = true ∧
        (((rq.statusCode = 200 ∨ rq.statusCode = 201) ∧ this.config.StatsOnly = false ∧
            ((rq.containError = true ∧ this.config.ContinueOnAnyError = false) ∨
              (rq.containError = false ∧ this.config.ContinueOnSuccess = false))) ∨
          (¬ (rq.statusCode = 200 ∨ rq.statusCode = 201) ∧
            this.config.ContinueOnAllError = false)) := by
  by_cases hm : rq.method = "POST"
  swap
  · simp [BulkResponseProcess.Filter, hm, returnAfter]
  by_cases hp : QueueConsumer.ContainStr rq.path "_bulk" = true
  swap
  · simp [BulkResponseProcess.Filter, hp, returnAfter]
  by_cases hs : rq.statusCode = 200 ∨ rq.statusCode = 201
  swap
  · have h1 := (finished_not_mem_blocks this.config rq .none2xx this.config.TagsOnNone2xx).1
    simp only [BulkResponseProcess.Filter, hm, hp, hs, returnAfter, ne_eq, not_true_eq_false,
      Bool.true_eq_false, or_self, if_false, List.mem_append, h1, false_or, mem_finishedEffect,
      and_true, true_and, not_false_eq_true, false_and]
    split <;> simp
  by_cases hstats : this.config.StatsOnly = true
  · simp only [BulkResponseProcess.Filter, hm, hp, hs, hstats, returnAfter, ne_eq,
      not_true_eq_false, Bool.true_eq_false, or_self, if_false, if_true, true_and,
      false_and, not_true_eq_false, or_false, iff_false]
    split <;> simp
  have hstats0 : this.config.StatsOnly = false := by simpa using hstats
  by_cases herr : rq.containError = true
  · obtain ⟨pre, mid, hpre, hmid, heff⟩ :=
      filter_anyError_effects this rq ctx hm hp hs hstats0 herr hret
    have hb := finished_not_mem_blocks this.config rq .anyError this.config.TagsOnAnyError
    have h1 : Effect.finished ∉ pre := by
      rcases hpre with h | h <;> simp [h]
    have h2 : Effect.finished ∉ mid := by
      rcases hmid with h | ⟨q, b, h⟩ | ⟨e, i, inv, q, b, h⟩ <;> simp [h]
    have h3 : Effect.finished ∉
        (if rq.retryableItems.count > 0 then failureTagEffects this.config rq else []) := by
      split
      · exact hb.2.2.1
      · simp
    rw [heff]
    simp only [List.mem_append, h1, h2, h3, hb.1, hb.2.1, hb.2.2.2, false_or,
      mem_finishedEffect, and_true, hm, hp, hs, hstats0, herr, true_and, not_true_eq_false,
      false_and, or_false, Bool.true_eq_false]
  · have herr0 : rq.containError = false := by simpa using herr
    have h1 := (finished_not_mem_blocks this.config rq .allSuccess
      this.config.TagsOnAllSuccess).1
    simp only [BulkResponseProcess.Filter, hm, hp, hs, hstats0, herr0, returnAfter, ne_eq,
      not_true_eq_false, Bool.true_eq_false, or_self, if_false, if_true, List.mem_append, h1,
      false_or, mem_finishedEffect, and_true, true_and, not_false_eq_true, false_and,
      Bool.false_eq_true, or_false]
    split <;> split <;> simp

/-- C14 amended, on a 200 response with errors (marked finished, continue-on-any-error being
off) and on the same response with stats-only on (not marked). -/
theorem filter_marks_finished_witness :
    Effect.finished ∈
      ((builtFilter registryRetryFlow sampleConfig).Filter
        (bulkExchange 200 true 0 1 1 false) ctx0).effects ∧
    Effect.finished ∉
      (BulkResponseProcess.Filter ⟨"uuid", { sampleConfig with StatsOnly := true }, none⟩
        (bulkExchange 200 true 0 1 1 false) ctx0).effects :=
  ⟨(filter_marks_finished (builtFilter registryRetryFlow sampleConfig)
      (bulkExchange 200 true 0 1 1 false) ctx0 rfl).mpr (by decide),
    fun h => absurd ((filter_marks_finished
      ⟨"uuid", { sampleConfig with StatsOnly := true }, none⟩
      (bulkExchange 200 true 0 1 1 false) ctx0 rfl).mp h) (by decide)⟩

/-- C15, failing input: the filter is built with retry flow `retry` and partial failure retry
on, over a registry that holds only the flow configuration `retry`; the response is a 200 with
one retryable item. `MustGetFlow` materializes the flow without setting its ID, so the entry
appended to the trace is `retry_flow:` with no id, where `retry_flow:retry` is expected. The
retry flow then runs and the push to the failure queue comes last. Over a registry in which
the flow was registered with `RegisterFlow` the entry is `retry_flow:retry`. -/
theorem filter_retry_trace_example :
    ((builtFilter registryRetryConfig sampleConfig).Filter
        (bulkExchange 200 true 0 0 1 false) ctx0).effects =
      [.set "bulk_response_status", .updateTags .anyError ["any_error"],
       .addFlowProcess "retry_flow:", .runFlow "" [0],
       .push .failure "failure" (.overrideBody (ascii "f\n")),
       .updateTags .partialFailure ["partial_failure"],
       .updateTags .allFailure ["all_failure"], .finished] ∧
    ((builtFilter registryRetryConfig sampleConfig).Filter
        (bulkExchange 200 true 0 0 1 false) ctx0).result.value.flowProcess = ["retry_flow:"] ∧
    Effect.addFlowProcess "retry_flow:retry" ∉
      ((builtFilter registryRetryConfig sampleConfig).Filter
        (bulkExchange 200 true 0 0 1 false) ctx0).effects ∧
    ((builtFilter registryRetryFlow sampleConfig).Filter
        (bulkExchange 200 true 0 0 1 false) ctx0).effects =
      [.set "bulk_response_status", .updateTags .anyError ["any_error"],
       .addFlowProcess "retry_flow:retry", .runFlow "retry" [0],
       .push .failure "failure" (.overrideBody (ascii "f\n")),
       .updateTags .partialFailure ["partial_failure"],
       .updateTags .allFailure ["all_failure"], .finished] := by
  decide

/-- C16. For a POST `_bulk` request whose response status is outside [200, 299], `Filter`
applies the none-2xx tags (when the list is not empty), then pushes the encoded request to the
failure queue iff that queue is set and the retry rules say the response is retryable, then
marks the context finished when continue-on-all-error is off; it makes no other call. So at
most one message is pushed, to the failure queue, nothing goes to the invalid or success
queues, and no tag but the none-2xx tags is applied. -/
theorem filter_none2xx (this : BulkResponseProcess) (rq : BulkExchange) (ctx : RequestCtx)
    (hm : rq.method = "POST") (hp : QueueConsumer.ContainStr rq.path "_bulk" = true)
    (hs : rq.statusCode < 200 ∨ rq.statusCode > 299) :
    (this.Filter rq ctx).effects =
      tagEffect .none2xx this.config.TagsOnNone2xx ++
        (if this.config.FailureQueue ≠ "" ∧ rq.retryable = true then
          [.push .failure this.config.FailureQueue .encoded]
        else []) ++
        finishedEffect this.config.ContinueOnAllError ∧
    (this.Filter rq ctx).result.isReturned = true ∧
    (∀ (o : QueueOption) (q : String) (b : Payload),
      Effect.push o q b ∈ (this.Filter rq ctx).effects ↔
        (this.config.FailureQueue ≠ "" ∧ rq.retryable = true) ∧
          o = .failure ∧ q = this.config.FailureQueue ∧ b = .encoded) ∧
    (∀ (o : TagOption) (t : List String),
      Effect.updateTags o t ∈ (this.Filter rq ctx).effects ↔
        t ≠ [] ∧ o = .none2xx ∧ t = this.config.TagsOnNone2xx) := by
  have hs2 : ¬ (rq.statusCode = 200 ∨ rq.statusCode = 201) := by omega
  have heff : (this.Filter rq ctx).effects =
      tagEffect .none2xx this.config.TagsOnNone2xx ++
        (if this.config.FailureQueue ≠ "" ∧ rq.retryable = true then
          [.push .failure this.config.FailureQueue .encoded]
        else []) ++
        finishedEffect this.config.ContinueOnAllError := by
    simp [BulkResponseProcess.Filter, hm, hp, hs2, returnAfter]
  refine ⟨heff, ?_, ?_, ?_⟩
  · simp [BulkResponseProcess.Filter, hm, hp, hs2, returnAfter, Completion.isReturned]
  · intro o q b
    rw [heff]
    simp only [List.mem_append, mem_tagEffect, mem_finishedEffect, reduceCtorEq, and_false,
      false_or, or_false]
    split <;> simp_all
  · intro o t
    rw [heff]
    simp only [List.mem_append, mem_tagEffect, mem_finishedEffect, reduceCtorEq, and_false,
      or_false, Effect.updateTags.injEq]
    split <;> simp_all

/-- C16, on status 503 judged retryable (one push of the encoded request to the failure queue)
and on status 400 judged not retryable (no push). -/
theorem filter_none2xx_witness :
    ((builtFilter registryRetryFlow sampleConfig).Filter
        (bulkExchange 503 false 0 0 0 true) ctx0).effects =
      [.updateTags .none2xx ["none_2xx"], .push .failure "failure" .encoded, .finished] ∧
    ((builtFilter registryRetryFlow sampleConfig).Filter
        (bulkExchange 400 false 0 0 0 false) ctx0).effects =
      [.updateTags .none2xx ["none_2xx"], .finished] :=
  ⟨(filter_none2xx (builtFilter registryRetryFlow sampleConfig)
      (bulkExchange 503 false 0 0 0 true) ctx0 rfl (by decide) (Or.inr (by decide))).1,
    (filter_none2xx (builtFilter registryRetryFlow sampleConfig)
      (bulkExchange 400 false 0 0 0 false) ctx0 rfl (by decide) (Or.inr (by decide))).1⟩

/-- The branch of the other statuses is taken for every status that is not 200 or 201, also
for one inside [200, 299] such as 204: the none-2xx tags are applied there as well. -/
theorem filter_other_status (this : BulkResponseProcess) (rq : BulkExchange) (ctx : RequestCtx)
    (hm : rq.method = "POST") (hp : QueueConsumer.ContainStr rq.path "_bulk" = true)
    (hs : ¬ (rq.statusCode = 200 ∨ rq.statusCode = 201)) :
    (this.Filter rq ctx).effects =
      tagEffect .none2xx this.config.TagsOnNone2xx ++
        (if this.config.FailureQueue ≠ "" ∧ rq.retryable = true then
          [.push .failure this.config.FailureQueue .encoded]
        else []) ++
        finishedEffect this.config.ContinueOnAllError := by
  simp [BulkResponseProcess.Filter, hm, hp, hs, returnAfter]

end BulkResponse

end Gateway
